import Mathlib

/-!
# memory-flow: allocation tracker and analytics engine of `memoryanalysis.c`

A shallow embedding of `src/bin/memoryanalysis.c`.

* The C globals (`g_memory_block_head`, `g_analytics`, `g_last_check_time`,
  `g_last_major_faults`, `g_last_minor_faults`) become one record, `Globals`,
  which every operation takes and returns.
* `size_t` and `unsigned long` values are natural numbers, and every arithmetic
  operation the source performs on them is reduced modulo `2 ^ 64`.
* What the operating system hands to the program (the result of `malloc`, the
  clock, `getrusage`, the parsed fields of `/proc/meminfo`, `sysinfo`) is an
  explicit argument of the operation that asks for it.
* A `double` is a binary64 value: every operation rounds its exact result to
  nearest, ties to even (section Doubles).
* The blocks that `malloc` has handed out and `free` has not been given yet are
  the `live` list of a `Machine`; a `free` of any other non-null address is
  undefined behaviour, the result `none` (section The allocator).
* The two mutexes only serialise the calls; the embedding is the sequential
  semantics of one call at a time.
-/

namespace MemoryFlow

/-! ## Machine integers -/

/-- The modulus of `size_t` and `unsigned long` arithmetic on the 64-bit target. -/
def SIZE_MOD : Nat := 2 ^ 64

/-- Unsigned 64-bit addition `a + b`. -/
def wadd (a b : Nat) : Nat := (a + b) % SIZE_MOD

/-- Unsigned 64-bit subtraction `a - b`: the result wraps around when `b > a`. -/
def wsub (a b : Nat) : Nat := (a + (SIZE_MOD - b % SIZE_MOD)) % SIZE_MOD

/-- Unsigned 64-bit multiplication `a * b`. -/
def wmul (a b : Nat) : Nat := (a * b) % SIZE_MOD

/-- The modulus of `int` on the target. -/
def INT_MOD : Int := 2 ^ 32

/-- An `int` result brought back into `[-2^31, 2^31)` (twos-complement wrap). -/
def wrapInt (x : Int) : Int := (x + 2 ^ 31) % INT_MOD - 2 ^ 31

/-! ## Doubles

A `double` is a binary64 number: NaN, plus or minus infinity, or a finite
number, kept as the rational it denotes. Every arithmetic operation and every
conversion from an integer computes the exact result and rounds it to binary64
(round to nearest, ties to even, gradual underflow, overflow to infinity), as
IEEE-754 prescribes. Each operation is rounded on its own, as the x86-64 target
evaluates `double` expressions (no excess precision, no fused multiply-add). The
sign of a zero is not kept: a zero divisor in this
program is always the conversion of an integer zero or a sum that cancels, so it
is the positive zero. -/

/-- A `double`. -/
inductive Dbl where
  | nan : Dbl
  | inf (neg : Bool) : Dbl
  | fin (q : ℚ) : Dbl
deriving DecidableEq

namespace Dbl

/-- The power `2 ^ e` for an integer exponent. -/
def pow2 (e : Int) : ℚ :=
  if 0 ≤ e then ((2 ^ e.toNat : Nat) : ℚ) else 1 / ((2 ^ (-e).toNat : Nat) : ℚ)

/-- The binary logarithm of `n`, rounded down, computed by at most `fuel`
halvings. -/
def log2_fuel : Nat → Nat → Nat
  | 0, _ => 0
  | fuel + 1, n => if 2 ≤ n then log2_fuel fuel (n / 2) + 1 else 0

/-- The binary logarithm of a positive natural number, rounded down. -/
def nlog2 (n : Nat) : Nat := log2_fuel n n

/-- The binary logarithm of a positive rational, rounded down: the `k` with
`2 ^ k <= x < 2 ^ (k + 1)`. -/
def ilog2 (x : ℚ) : Int :=
  let g : Int := (nlog2 x.num.toNat : Int) - (nlog2 x.den : Int)
  if pow2 g ≤ x then g else g - 1

/-- The exponent of the last place of the binary64 numbers around a positive
`x`: 53 significant bits, and never below the exponent -1074 of the subnormal
numbers. -/
def expo (x : ℚ) : Int := max (ilog2 x - 52) (-1074)

/-- Rounding to the nearest integer, a tie going to the even one. -/
def rne (s : ℚ) : Int :=
  if s - ⌊s⌋ < 1 / 2 then ⌊s⌋
  else if 1 / 2 < s - ⌊s⌋ then ⌊s⌋ + 1
  else if ⌊s⌋ % 2 = 0 then ⌊s⌋ else ⌊s⌋ + 1

/-- The binary64 magnitude nearest to a positive `a`, before the overflow
test. -/
def rmag (a : ℚ) : ℚ := (rne (a / pow2 (expo a)) : ℚ) * pow2 (expo a)

/-- Rounding of an exact result to binary64 (round to nearest, ties to even):
a magnitude of `2 ^ 1024` or more after rounding is an infinity. -/
def round (x : ℚ) : Dbl :=
  if x = 0 then fin 0
  else if pow2 1024 ≤ rmag |x| then inf (decide (x < 0))
  else fin (if x < 0 then -rmag |x| else rmag |x|)

/-- The number is a binary64 magnitude: at most 53 significant bits over an
exponent of at least -1074. -/
def Representable (b : ℚ) : Prop :=
  ∃ (m : ℕ) (e : ℤ), m ≤ 2 ^ 53 ∧ -1074 ≤ e ∧ b = (m : ℚ) * pow2 e

/-- Conversion of an unsigned integer to `double`. -/
def ofNat (n : Nat) : Dbl := round (n : ℚ)

/-- Conversion of a signed integer to `double`. -/
def ofInt (n : Int) : Dbl := round (n : ℚ)

/-- Unary minus. -/
def neg : Dbl → Dbl
  | nan => nan
  | inf s => inf (!s)
  | fin q => fin (-q)

/-- Addition `a + b`. -/
def add : Dbl → Dbl → Dbl
  | nan, _ => nan
  | _, nan => nan
  | inf s, inf t => if s = t then inf s else nan
  | inf s, fin _ => inf s
  | fin _, inf t => inf t
  | fin a, fin b => round (a + b)

/-- Subtraction `a - b`. -/
def sub (a b : Dbl) : Dbl := add a (neg b)

/-- Multiplication `a * b`. -/
def mul : Dbl → Dbl → Dbl
  | nan, _ => nan
  | _, nan => nan
  | inf s, inf t => inf (xor s t)
  | inf s, fin b => if b = 0 then nan else inf (xor s (decide (b < 0)))
  | fin a, inf t => if a = 0 then nan else inf (xor (decide (a < 0)) t)
  | fin a, fin b => round (a * b)

/-- Division `a / b`; a finite nonzero number over zero is an infinity and
zero over zero is NaN. -/
def div : Dbl → Dbl → Dbl
  | nan, _ => nan
  | _, nan => nan
  | inf _, inf _ => nan
  | inf s, fin b => inf (xor s (decide (b < 0)))
  | fin _, inf _ => fin 0
  | fin a, fin b =>
      if b = 0 then (if a = 0 then nan else inf (decide (a < 0))) else round (a / b)

/-- The C classification `isfinite`. -/
def isfinite : Dbl → Bool
  | fin _ => true
  | _ => false

/-- The conversion `(int)x`: truncation toward zero. C leaves the conversion of
NaN, of an infinity and of a value outside the range of `int` undefined; the
x86-64 instruction returns `INT_MIN` there, which is what this function does. -/
def toInt : Dbl → Int
  | fin q =>
      let t : Int := Int.tdiv q.num (q.den : Int)
      if -(2 ^ 31 : Int) ≤ t ∧ t < 2 ^ 31 then t else -(2 ^ 31)
  | _ => -(2 ^ 31)

/-- The value is a finite number between `lo` and `hi`. -/
def inRange (lo hi : ℚ) : Dbl → Prop
  | fin q => lo ≤ q ∧ q ≤ hi
  | _ => False

instance (lo hi : ℚ) (x : Dbl) : Decidable (inRange lo hi x) := by
  cases x <;> unfold inRange <;> infer_instance

end Dbl

/-! ## Data model -/

/-- The C `struct MemoryBlock` without its `next` link: one record of the
allocation registry. `ptr` is the address (0 is `NULL`), `file` and `line` the
origin site. -/
structure MemoryBlock where
  ptr : Nat
  size : Nat
  file : String
  line : Int
deriving DecidableEq

/-- The C `struct timespec`. -/
structure Timespec where
  tv_sec : Int
  tv_nsec : Int
deriving DecidableEq

/-- The C `struct MemoryAnalytics`. -/
structure MemoryAnalytics where
  total_memory : Nat
  free_memory : Nat
  largest_free_block : Nat
  fragmentation_index : Dbl
  major_faults : Int
  minor_faults : Int
  fault_rate : Dbl
  pressure_score : Dbl
  swap_usage_percent : Int
  last_update : Timespec
  memory_usage : Nat
  peak_usage : Nat
deriving DecidableEq

/-- The global variables of the program. The linked list that starts at
`g_memory_block_head` is the list of its records, head first. -/
structure Globals where
  g_memory_block_head : List MemoryBlock
  g_analytics : MemoryAnalytics
  g_last_check_time : Timespec
  g_last_major_faults : Int
  g_last_minor_faults : Int
deriving DecidableEq

/-- The zero-initialised `g_analytics`. -/
def MemoryAnalytics.zero : MemoryAnalytics :=
  { total_memory := 0, free_memory := 0, largest_free_block := 0,
    fragmentation_index := Dbl.fin 0, major_faults := 0, minor_faults := 0,
    fault_rate := Dbl.fin 0, pressure_score := Dbl.fin 0, swap_usage_percent := 0,
    last_update := ⟨0, 0⟩, memory_usage := 0, peak_usage := 0 }

/-- The globals at program start: empty registry, every counter zero. -/
def Globals.init : Globals :=
  { g_memory_block_head := [], g_analytics := MemoryAnalytics.zero,
    g_last_check_time := ⟨0, 0⟩, g_last_major_faults := 0, g_last_minor_faults := 0 }

/-! ## Memory tracking functions -/

/-- The C function `tracked_malloc`. `ptr` is what `malloc(size)` returned
(0 for `NULL`) and `block` tells whether `malloc(sizeof(MemoryBlock))` returned
a record. The result is the returned pointer and the globals afterwards. -/
def tracked_malloc (g : Globals) (size : Nat) (filename : String) (line : Int)
    (ptr : Nat) (block : Bool) : Nat × Globals :=
  if ptr ≠ 0 then
    if block = false then (ptr, g)
    else
      let head := { ptr := ptr, size := size, file := filename, line := line } ::
        g.g_memory_block_head
      let memory_usage := wadd g.g_analytics.memory_usage size
      let peak_usage :=
        if memory_usage > g.g_analytics.peak_usage then memory_usage
        else g.g_analytics.peak_usage
      (ptr, { g with
        g_memory_block_head := head
        g_analytics := { g.g_analytics with
          memory_usage := memory_usage, peak_usage := peak_usage } })
  else (ptr, g)

/-- The search loop of `tracked_free`: the first record whose address is `ptr`
(`curr` when the loop stops), if there is one. -/
def find_block (ptr : Nat) : List MemoryBlock → Option MemoryBlock
  | [] => none
  | curr :: next => if curr.ptr ≠ ptr then find_block ptr next else some curr

/-- The list after `tracked_free` has unlinked the record the search loop
stopped at: the first record whose address is `ptr` is removed. -/
def unlink_block (ptr : Nat) : List MemoryBlock → List MemoryBlock
  | [] => []
  | curr :: next => if curr.ptr ≠ ptr then curr :: unlink_block ptr next else next

/-- The effect of the C function `tracked_free` on the globals. Its calls
`free(curr)` and `free(ptr)` act on the allocator and leave the globals alone;
`tracked_free_call` below is the function with them. -/
def tracked_free (g : Globals) (ptr : Nat) : Globals :=
  if ptr = 0 then g
  else
    match find_block ptr g.g_memory_block_head with
    | none => g
    | some curr =>
      { g with
        g_memory_block_head := unlink_block ptr g.g_memory_block_head
        g_analytics := { g.g_analytics with
          memory_usage := wsub g.g_analytics.memory_usage curr.size } }

/-- One line `Leak detected: <size> bytes at <file>:<line>` of the scan. -/
structure LeakLine where
  size : Nat
  file : String
  line : Int
deriving DecidableEq

/-- What `detect_memory_leaks` reports: the lines it prints, in order, and the
two totals of its summary. -/
structure LeakScan where
  lines : List LeakLine
  leak_count : Int
  total_leaked : Nat
deriving DecidableEq

/-- The `while` loop of `detect_memory_leaks` from record `curr` on. -/
def detect_loop (file_name : String) : List MemoryBlock → LeakScan → LeakScan
  | [], acc => acc
  | curr :: next, acc =>
      if curr.file = file_name then
        detect_loop file_name next
          { lines := acc.lines ++ [{ size := curr.size, file := curr.file, line := curr.line }]
            leak_count := wrapInt (acc.leak_count + 1)
            total_leaked := wadd acc.total_leaked curr.size }
      else detect_loop file_name next acc

/-- The C function `detect_memory_leaks`; it does not change the globals. -/
def detect_memory_leaks (g : Globals) (file_name : String) : LeakScan :=
  detect_loop file_name g.g_memory_block_head
    { lines := [], leak_count := 0, total_leaked := 0 }

/-! ## Sequences of tracker calls -/

/-- One call of the tracker together with what the allocator answered. -/
inductive Call where
  | malloc (size : Nat) (filename : String) (line : Int) (ptr : Nat) (block : Bool)
  | free (ptr : Nat)
deriving DecidableEq

/-- The globals after one call. -/
def step (g : Globals) : Call → Globals
  | Call.malloc size filename line ptr block =>
      (tracked_malloc g size filename line ptr block).2
  | Call.free ptr => tracked_free g ptr

/-- The globals after a sequence of calls. -/
def run (g : Globals) : List Call → Globals
  | [] => g
  | c :: cs => run (step g c) cs

/-- The globals observed after each call of a sequence, in order. -/
def trace (g : Globals) : List Call → List Globals
  | [] => []
  | c :: cs => step g c :: trace (step g c) cs

/-- The sum of the sizes of the records of a registry. -/
def sumSizes : List MemoryBlock → Nat
  | [] => 0
  | b :: bs => b.size + sumSizes bs

/-- The addresses of the records of a registry. -/
def addresses (l : List MemoryBlock) : List Nat := l.map (fun b => b.ptr)

/-- The answer of the allocator in a call is admissible: a block it returns does not
have the address of a record that is still in the registry. -/
def freshCall (g : Globals) : Call → Bool
  | Call.malloc _ _ _ ptr _ => decide (ptr = 0 ∨ ptr ∉ addresses g.g_memory_block_head)
  | Call.free _ => true

/-- Every answer of the allocator along a sequence of calls is admissible. -/
def freshCalls (g : Globals) : List Call → Bool
  | [] => true
  | c :: cs => freshCall g c && freshCalls (step g c) cs

/-- The total live size stays below `2 ^ 64` after each call of a sequence. -/
def liveBounded (g : Globals) (cs : List Call) : Prop :=
  ∀ s ∈ trace g cs, sumSizes s.g_memory_block_head < SIZE_MOD

/-- The largest of the values `memory_usage` takes after each call, starting
from the value `m`. -/
def maxUsage (m : Nat) (states : List Globals) : Nat :=
  states.foldl (fun acc s => max acc s.g_analytics.memory_usage) m

/-! ## Analytics functions -/

/-- What a successful `getrusage(RUSAGE_SELF, &usage)` stored: the cumulative
page-fault counters of the process. -/
structure Rusage where
  ru_majflt : Int
  ru_minflt : Int
deriving DecidableEq

/-- The five locals the reading loop over `/proc/meminfo` fills, in kB. -/
structure MemInfo where
  memTotal : Nat
  memFree : Nat
  memAvailable : Nat
  cached : Nat
  buffers : Nat
deriving DecidableEq

/-- The two fields of `struct sysinfo` the program reads. -/
structure SysInfo where
  totalswap : Nat
  freeswap : Nat
deriving DecidableEq

/-- The C function `init_analytics`. `now` is the clock reading and `usage` the
result of `getrusage` (`none` when it failed). -/
def init_analytics (g : Globals) (now : Timespec) (usage : Option Rusage) : Globals :=
  let g1 := { g with g_last_check_time := now }
  match usage with
  | some u => { g1 with g_last_major_faults := u.ru_majflt, g_last_minor_faults := u.ru_minflt }
  | none => g1

/-- The local `time_diff` of `update_analytics`, in seconds. -/
def time_diff (current_time last : Timespec) : Dbl :=
  Dbl.add (Dbl.ofInt (current_time.tv_sec - last.tv_sec))
    (Dbl.div (Dbl.ofInt (current_time.tv_nsec - last.tv_nsec)) (Dbl.fin 1000000000))

/-- The page-fault block of `update_analytics`: runs when `getrusage` succeeded. -/
def update_faults (g : Globals) (td : Dbl) : Option Rusage → Globals
  | none => g
  | some usage =>
      let major_faults := usage.ru_majflt - g.g_last_major_faults
      let minor_faults := usage.ru_minflt - g.g_last_minor_faults
      { g with
        g_analytics := { g.g_analytics with
          major_faults := major_faults
          minor_faults := minor_faults
          fault_rate := Dbl.div (Dbl.ofInt (major_faults + minor_faults)) td }
        g_last_major_faults := usage.ru_majflt
        g_last_minor_faults := usage.ru_minflt }

/-- The local `swap_used_percent` of `update_analytics`. -/
def swap_used_percent (si : SysInfo) : Dbl :=
  if si.totalswap ≠ 0 then
    Dbl.sub (Dbl.fin 1) (Dbl.div (Dbl.ofNat si.freeswap) (Dbl.ofNat si.totalswap))
  else Dbl.fin 0

/-- The `/proc/meminfo` block of `update_analytics`: runs when the file could be
opened, with the values the reading loop parsed; `si` is the result of
`sysinfo` (`none` when it failed). -/
def update_memory (a : MemoryAnalytics) : Option MemInfo → Option SysInfo → MemoryAnalytics
  | none, _ => a
  | some m, si =>
      let a1 := { a with
        total_memory := wmul m.memTotal 1024
        free_memory := wmul m.memAvailable 1024
        memory_usage := wmul (wsub m.memTotal m.memAvailable) 1024
        fragmentation_index :=
          Dbl.sub (Dbl.fin 1) (Dbl.div (Dbl.ofNat m.memAvailable) (Dbl.ofNat m.memTotal)) }
      let mem_used_percent :=
        Dbl.sub (Dbl.fin 1) (Dbl.div (Dbl.ofNat m.memAvailable) (Dbl.ofNat m.memTotal))
      match si with
      | none => a1
      | some s =>
          { a1 with
            pressure_score :=
              Dbl.add (Dbl.mul mem_used_percent (Dbl.round (7 / 10)))
                (Dbl.mul (swap_used_percent s) (Dbl.round (3 / 10)))
            swap_usage_percent :=
              Dbl.toInt (Dbl.mul (swap_used_percent s) (Dbl.fin 100)) }

/-- The C function `update_analytics`, one refresh of the analytics state. -/
def update_analytics (g : Globals) (current_time : Timespec) (usage : Option Rusage)
    (meminfo : Option MemInfo) (si : Option SysInfo) : Globals :=
  let g1 := update_faults g (time_diff current_time g.g_last_check_time) usage
  { g1 with
    g_analytics := update_memory g1.g_analytics meminfo si
    g_last_check_time := current_time }

/-- The values `analyze_memory_advanced` passes to `printf`, key by key. -/
structure Report where
  fragmentation_index : Dbl
  fault_rate : Dbl
  pressure_score : Dbl
  swap_usage_percent : Int
  major_faults : Int
  minor_faults : Int
  memory_usage : Nat
  total_memory : Nat
  free_memory : Nat
deriving DecidableEq

/-- The report assembly of `analyze_memory_advanced`, after `update_analytics`. -/
def report_of (a : MemoryAnalytics) : Report :=
  { fragmentation_index := a.fragmentation_index
    fault_rate := if Dbl.isfinite a.fault_rate then a.fault_rate else Dbl.fin 0
    pressure_score := a.pressure_score
    swap_usage_percent := a.swap_usage_percent
    major_faults := a.major_faults
    minor_faults := a.minor_faults
    memory_usage := a.memory_usage
    total_memory := a.total_memory
    free_memory := a.free_memory }

/-- What the system answers during one run of `analyze_memory_advanced`: the
clock and `getrusage` for `init_analytics`, then the clock, `getrusage`, the
parsed `/proc/meminfo` and `sysinfo` for `update_analytics`. -/
structure Readings where
  init_time : Timespec
  init_usage : Option Rusage
  current_time : Timespec
  usage : Option Rusage
  meminfo : Option MemInfo
  si : Option SysInfo
deriving DecidableEq

/-- The C function `analyze_memory_advanced` up to its `exit(0)`: `initialized`
is its static flag on entry; the result is the printed report and the globals. -/
def analyze_memory_advanced (initialized : Bool) (g : Globals) (r : Readings) :
    Report × Globals :=
  let g0 := if initialized = false then init_analytics g r.init_time r.init_usage else g
  let g1 := update_analytics g0 r.current_time r.usage r.meminfo r.si
  (report_of g1.g_analytics, g1)

/-- Every floating-point field of a report is a finite number. -/
def Report.finite (r : Report) : Prop :=
  Dbl.isfinite r.fragmentation_index = true ∧ Dbl.isfinite r.fault_rate = true ∧
    Dbl.isfinite r.pressure_score = true

/-- The state of the counters along a run without wrap-around: the counter is the
live total, the live total fits in 64 bits, and the peak dominates the counter. -/
def CountersOk (g : Globals) : Prop :=
  g.g_analytics.memory_usage = sumSizes g.g_memory_block_head ∧
    sumSizes g.g_memory_block_head < SIZE_MOD ∧
    g.g_analytics.memory_usage ≤ g.g_analytics.peak_usage

instance (g : Globals) (cs : List Call) : Decidable (liveBounded g cs) := by
  unfold liveBounded
  infer_instance

/-- The records of the registry whose origin file is `file_name`, in registry
order: what the specification asks a leak scan for `file_name` to return. -/
def liveAt (g : Globals) (file_name : String) : List MemoryBlock :=
  g.g_memory_block_head.filter (fun b => decide (b.file = file_name))

/-- The printed line of a record. -/
def lineOf (b : MemoryBlock) : LeakLine :=
  { size := b.size, file := b.file, line := b.line }

/-- The demonstration of `test_memory_leaks` with two origin files: 400 bytes
from `a.c`, 800 bytes from `b.c`, then the release of the first block. -/
def leakScenario : List Call :=
  [Call.malloc 400 "a.c" 401 4096 true, Call.malloc 800 "b.c" 402 8192 true, Call.free 4096]

/-- A reading of `/proc/meminfo` in which more memory is available than there is
in total (1000 kB in total, 2000 kB available), with swap disabled. -/
def skewedReadings : Readings :=
  { init_time := ⟨100, 0⟩, init_usage := some ⟨0, 0⟩,
    current_time := ⟨101, 0⟩, usage := some ⟨3, 4⟩,
    meminfo := some { memTotal := 1000, memFree := 0, memAvailable := 2000, cached := 0, buffers := 0 },
    si := some { totalswap := 0, freeswap := 0 } }

/-- The meminfo reading of the specification scenario: 1 000 000 kB in total and
250 000 kB available. -/
def sampleMemInfo : MemInfo :=
  { memTotal := 1000000, memFree := 100000, memAvailable := 250000, cached := 0, buffers := 0 }

/-- A swap reading with half of the swap free. -/
def sampleSysInfo : SysInfo :=
  { totalswap := 2000000, freeswap := 1000000 }

/-- One run of the report on the sample readings, one second after the baseline. -/
def sampleReadings : Readings :=
  { init_time := ⟨100, 0⟩, init_usage := some ⟨0, 0⟩,
    current_time := ⟨101, 0⟩, usage := some ⟨3, 4⟩,
    meminfo := some sampleMemInfo, si := some sampleSysInfo }

/-! ## The reading loop over `/proc/meminfo`

A line is the character string one `fgets` call delivers (a line of the file, or
a piece of it when the line is longer than the 256-byte buffer). -/

/-- The test `strncmp(line, lit, n) == 0` on strings without an inner NUL: the
first `n` characters agree. -/
def strncmp_eq (line lit : List Char) (n : Nat) : Bool :=
  line.take n == lit.take n

/-- The C classification `isspace` in the C locale: the blank and the control
characters 9 to 13. -/
def isspace (c : Char) : Bool :=
  c.toNat == 32 || (decide (9 ≤ c.toNat) && decide (c.toNat ≤ 13))

/-- The white space a conversion skips. -/
def skip_space : List Char → List Char
  | [] => []
  | c :: cs => if isspace c then skip_space cs else c :: cs

/-- The value of a decimal digit. -/
def digit_value (c : Char) : Option Nat :=
  if 48 ≤ c.toNat ∧ c.toNat ≤ 57 then some (c.toNat - 48) else none

/-- The number the leading decimal digits of a string spell, after `acc`. -/
def scan_digits : List Char → Nat → Nat
  | [], acc => acc
  | c :: cs, acc =>
      match digit_value c with
      | some d => scan_digits cs (acc * 10 + d)
      | none => acc

/-- The digits of a `%lu` item as `strtoul` reads them: at least one digit is
needed, and a number that does not fit is `ULONG_MAX`. -/
def scan_number (negative : Bool) (s : List Char) : Option Nat :=
  match s with
  | [] => none
  | c :: _ =>
      if (digit_value c).isSome then
        let v := scan_digits s 0
        if v < SIZE_MOD then some (if negative then wsub 0 v else v)
        else some (SIZE_MOD - 1)
      else none

/-- The conversion `%lu`: white space, an optional sign, decimal digits. The
result is `none` when nothing is converted (the variable keeps its value). -/
def scan_lu (s : List Char) : Option Nat :=
  match skip_space s with
  | '-' :: r => scan_number true r
  | '+' :: r => scan_number false r
  | r => scan_number false r

/-- The call `sscanf(line, "<lit> %lu", &v)`: the characters of `lit` have to
match the start of the line, then comes the number. -/
def sscanf_lu (lit line : List Char) : Option Nat :=
  if line.take lit.length == lit then scan_lu (line.drop lit.length) else none

/-- The string `MemTotal:` of the source. -/
def MEMTOTAL : List Char := "MemTotal:".toList

/-- The string `MemFree:` of the source. -/
def MEMFREE : List Char := "MemFree:".toList

/-- The string `MemAvailable:` of the source. -/
def MEMAVAILABLE : List Char := "MemAvailable:".toList

/-- The string `Cached:` of the source. -/
def CACHED : List Char := "Cached:".toList

/-- The string `Buffers:` of the source. -/
def BUFFERS : List Char := "Buffers:".toList

/-- The body of the reading loop of `update_analytics` for one line. -/
def meminfo_line (m : MemInfo) (line : List Char) : MemInfo :=
  if strncmp_eq line MEMTOTAL 9 then
    match sscanf_lu MEMTOTAL line with
    | some v => { m with memTotal := v }
    | none => m
  else if strncmp_eq line MEMFREE 8 then
    match sscanf_lu MEMFREE line with
    | some v => { m with memFree := v }
    | none => m
  else if strncmp_eq line MEMAVAILABLE 12 then
    match sscanf_lu MEMAVAILABLE line with
    | some v => { m with memAvailable := v }
    | none => m
  else if strncmp_eq line CACHED 7 then
    match sscanf_lu CACHED line with
    | some v => { m with cached := v }
    | none => m
  else if strncmp_eq line BUFFERS 8 then
    match sscanf_lu BUFFERS line with
    | some v => { m with buffers := v }
    | none => m
  else m

/-- The five locals at their initialisation, all zero. -/
def MemInfo.zero : MemInfo :=
  { memTotal := 0, memFree := 0, memAvailable := 0, cached := 0, buffers := 0 }

/-- The reading loop of `update_analytics` over the lines of the file. -/
def parse_meminfo (lines : List (List Char)) : MemInfo :=
  lines.foldl meminfo_line MemInfo.zero

/-- The C function `update_analytics` on the text of `/proc/meminfo`: `file` is
`none` when `fopen` failed and the list of the lines otherwise. -/
def update_analytics_file (g : Globals) (current_time : Timespec) (usage : Option Rusage)
    (file : Option (List (List Char))) (si : Option SysInfo) : Globals :=
  update_analytics g current_time usage (file.map parse_meminfo) si

/-- The line starts with the label `lit` (a label with its colon). -/
def has_label (lit line : List Char) : Bool :=
  line.take lit.length == lit

/-- The four fields the specification names, in the order MemTotal,
MemAvailable, Cached, Buffers. -/
def MemInfo.fields (m : MemInfo) : Nat × Nat × Nat × Nat :=
  (m.memTotal, m.memAvailable, m.cached, m.buffers)

/-- Each of the labels MemTotal, MemAvailable, Cached and Buffers occurs at most
once among the lines. -/
def labelsAtMostOnce (lines : List (List Char)) : Prop :=
  (lines.filter (has_label MEMTOTAL)).length ≤ 1 ∧
    (lines.filter (has_label MEMAVAILABLE)).length ≤ 1 ∧
    (lines.filter (has_label CACHED)).length ≤ 1 ∧
    (lines.filter (has_label BUFFERS)).length ≤ 1

/-- The line carries none of the four labels. -/
def otherLabel (line : List Char) : Prop :=
  has_label MEMTOTAL line = false ∧ has_label MEMAVAILABLE line = false ∧
    has_label CACHED line = false ∧ has_label BUFFERS line = false

instance (lines : List (List Char)) : Decidable (labelsAtMostOnce lines) := by
  unfold labelsAtMostOnce
  infer_instance

instance (line : List Char) : Decidable (otherLabel line) := by
  unfold otherLabel
  infer_instance

/-- A meminfo text: the usual head of the file, with a line of another label. -/
def sampleLines : List (List Char) :=
  ["MemTotal:        1000000 kB\n".toList, "MemFree:          100000 kB\n".toList,
   "MemAvailable:     250000 kB\n".toList, "Buffers:            4000 kB\n".toList,
   "Cached:            50000 kB\n".toList, "SwapCached:           12 kB\n".toList]

/-! ## The formulas of the specification for the pressure score -/

/-- The clamp of the specification: a value is brought into `[0,1]`. -/
def clamp01 (q : ℚ) : ℚ := max 0 (min 1 q)

/-- The `mem_used_fraction` of the specification: `1 - available/total`. -/
def mem_used_fraction (m : MemInfo) : ℚ :=
  1 - (m.memAvailable : ℚ) / (m.memTotal : ℚ)

/-- The `swap_used_fraction` of the specification: `1 - free_swap/total_swap`
when `total_swap > 0` and 0 otherwise. -/
def swap_used_fraction (s : SysInfo) : ℚ :=
  if 0 < s.totalswap then 1 - (s.freeswap : ℚ) / (s.totalswap : ℚ) else 0

/-- The unclamped blend of the specification:
`0.7*mem_used_fraction + 0.3*swap_used_fraction`. -/
def pressure_blend (m : MemInfo) (s : SysInfo) : ℚ :=
  (7 / 10) * mem_used_fraction m + (3 / 10) * swap_used_fraction s

/-! ## Further sample readings -/

/-- A meminfo text without a MemTotal line. -/
def noTotalLines : List (List Char) :=
  ["MemFree:          100000 kB\n".toList, "MemAvailable:     250000 kB\n".toList]

/-- The parsed values of the skewed reading: 1000 kB in total, 2000 kB available. -/
def skewedMemInfo : MemInfo :=
  { memTotal := 1000, memFree := 0, memAvailable := 2000, cached := 0, buffers := 0 }

/-- A swap reading of a system without swap; the free value is arbitrary. -/
def noSwapSysInfo : SysInfo :=
  { totalswap := 0, freeswap := 5 }

/-- The sample readings on a system without swap. -/
def noSwapReadings : Readings :=
  { sampleReadings with si := some noSwapSysInfo }

/-- Readings in which the fault counters read by the refresh (3 and 4) are lower
than the baseline `init_analytics` stored (10 and 20). -/
def resetReadings : Readings :=
  { sampleReadings with init_usage := some ⟨10, 20⟩, usage := some ⟨3, 4⟩ }

/-- The globals after `init_analytics` at time 100 s with the counters 3 and 4. -/
def baselineGlobals : Globals :=
  init_analytics Globals.init ⟨100, 0⟩ (some ⟨3, 4⟩)

/-! ## The allocator

`malloc` and `free` of the C library are modelled by the list of the live
blocks: the addresses `malloc` has returned for a block and `free` has not been
given since. Only the blocks handed to the caller are listed. The records of the
registry are blocks of their own, which `tracked_free` releases exactly once,
when it unlinks them, so its `free(curr)` is always defined. The address of a
record is not a block of the caller: a `tracked_free` of it would release a
record the registry still links, and counts as undefined as well. -/

/-- The globals of the program together with the live blocks of the allocator. -/
structure Machine where
  globals : Globals
  live : List Nat
deriving DecidableEq

/-- The machine at program start. -/
def Machine.init : Machine :=
  { globals := Globals.init, live := [] }

/-- The C library function `free` on the live blocks: `free(NULL)` does nothing,
a live block is released, and for any other address the behaviour is undefined,
which is the result `none`. -/
def free_block (live : List Nat) (ptr : Nat) : Option (List Nat) :=
  if ptr = 0 then some live
  else if ptr ∈ live then some (live.erase ptr)
  else none

/-- The C function `tracked_malloc` on the machine: the globals change as
`tracked_malloc` says, and a block `malloc(size)` returned is live afterwards,
with or without a record. -/
def tracked_malloc_call (m : Machine) (size : Nat) (filename : String) (line : Int)
    (ptr : Nat) (block : Bool) : Nat × Machine :=
  ((tracked_malloc m.globals size filename line ptr block).1,
    { globals := (tracked_malloc m.globals size filename line ptr block).2
      live := if ptr ≠ 0 then ptr :: m.live else m.live })

/-- The C function `tracked_free` as a whole: the globals change as
`tracked_free` says, and the final `free(ptr)` is executed, whether or not a
record was found. The result is `none` when that call is undefined. -/
def tracked_free_call (m : Machine) (ptr : Nat) : Option Machine :=
  if ptr = 0 then some m
  else
    match free_block m.live ptr with
    | none => none
    | some live => some { globals := tracked_free m.globals ptr, live := live }

/-- One call on the machine; `none` when its behaviour is undefined. -/
def stepM (m : Machine) : Call → Option Machine
  | Call.malloc size filename line ptr block =>
      some (tracked_malloc_call m size filename line ptr block).2
  | Call.free ptr => tracked_free_call m ptr

/-- A sequence of calls on the machine; `none` when one of them is undefined. -/
def runM (m : Machine) : List Call → Option Machine
  | [] => some m
  | c :: cs =>
      match stepM m c with
      | none => none
      | some m1 => runM m1 cs

/-- The answer of `malloc` in a call respects its contract: it is `NULL` or the
address of a block that is not live. -/
def freshAnswer (m : Machine) : Call → Bool
  | Call.malloc _ _ _ ptr _ => decide (ptr = 0 ∨ ptr ∉ m.live)
  | Call.free _ => true

/-- Every answer of `malloc` along a sequence of calls respects its contract. -/
def freshAnswers (m : Machine) : List Call → Bool
  | [] => true
  | c :: cs =>
      freshAnswer m c &&
        (match stepM m c with
         | none => true
         | some m1 => freshAnswers m1 cs)

/-- The live blocks are distinct, the registry has one record per address, and
every record is the record of a live block. -/
def Consistent (m : Machine) : Prop :=
  m.live.Nodup ∧ (addresses m.globals.g_memory_block_head).Nodup ∧
    ∀ p ∈ addresses m.globals.g_memory_block_head, p ∈ m.live

/-- The machine after the leak scenario: the block at 8192 is live, with its
record. -/
def leakMachine : Machine :=
  { globals := run Globals.init leakScenario, live := [8192] }

/-- The machine after a `tracked_malloc` of 400 bytes whose record allocation
failed: the block at 4096 is live and has no record. -/
def untrackedMachine : Machine :=
  (tracked_malloc_call Machine.init 400 "a.c" 401 4096 false).2

/-- The value is a finite number within `eps` of `x`. -/
def Dbl.near (x eps : ℚ) : Dbl → Prop
  | Dbl.fin q => |q - x| ≤ eps
  | _ => False

/-! ## The formulas of the specification in double arithmetic -/

/-- The `mem_used_fraction` of the specification, `1 - available/total`,
evaluated in doubles. -/
def mem_used_double (m : MemInfo) : Dbl :=
  Dbl.sub (Dbl.fin 1) (Dbl.div (Dbl.ofNat m.memAvailable) (Dbl.ofNat m.memTotal))

/-- The `swap_used_fraction` of the specification, `1 - free_swap/total_swap`
when `total_swap > 0` and 0 otherwise, evaluated in doubles. -/
def swap_used_double (s : SysInfo) : Dbl :=
  if 0 < s.totalswap then
    Dbl.sub (Dbl.fin 1) (Dbl.div (Dbl.ofNat s.freeswap) (Dbl.ofNat s.totalswap))
  else Dbl.fin 0

/-- The unclamped blend of the specification,
`0.7*mem_used_fraction + 0.3*swap_used_fraction`, evaluated in doubles. -/
def pressure_double (m : MemInfo) (s : SysInfo) : Dbl :=
  Dbl.add (Dbl.mul (Dbl.round (7 / 10)) (mem_used_double m))
    (Dbl.mul (Dbl.round (3 / 10)) (swap_used_double s))

/-- A reading of 3 kB in total with 1 kB available. -/
def thirdMemInfo : MemInfo :=
  { memTotal := 3, memFree := 0, memAvailable := 1, cached := 0, buffers := 0 }

/-- The sample readings with the meminfo values 3 and 1. -/
def thirdReadings : Readings :=
  { sampleReadings with meminfo := some thirdMemInfo }

/-! ## Lemmas on the registry -/

theorem wadd_mod_left (a b : Nat) : wadd (a % SIZE_MOD) b = (a + b) % SIZE_MOD := by
  unfold wadd
  rw [Nat.mod_add_mod]

theorem wadd_of_lt (a b : Nat) (h : a + b < SIZE_MOD) : wadd a b = a + b :=
  Nat.mod_eq_of_lt h

theorem wsub_cancel (c s : Nat) : wsub ((c + s) % SIZE_MOD) c = s % SIZE_MOD := by
  unfold wsub SIZE_MOD
  norm_num
  omega

theorem wsub_of_le (a c : Nat) (hc : c ≤ a) (ha : a < SIZE_MOD) : wsub a c = a - c := by
  unfold wsub
  unfold SIZE_MOD at ha ⊢
  norm_num at ha ⊢
  omega

theorem find_block_none (ptr : Nat) (l : List MemoryBlock) :
    find_block ptr l = none ↔ ptr ∉ addresses l := by
  induction l with
  | nil => simp [find_block, addresses]
  | cons b bs ih =>
    by_cases hb : b.ptr = ptr
    · simp [find_block, addresses, hb]
    · have ih2 : find_block ptr bs = none ↔ ptr ∉ List.map (fun b => b.ptr) bs := ih
      simp [find_block, addresses, hb, ih2, Ne.symm hb]

theorem find_block_some_ptr (ptr : Nat) (l : List MemoryBlock) (curr : MemoryBlock)
    (h : find_block ptr l = some curr) : curr.ptr = ptr ∧ curr ∈ l := by
  induction l with
  | nil => simp [find_block] at h
  | cons b bs ih =>
    by_cases hb : b.ptr = ptr
    · simp [find_block, hb] at h
      subst h
      exact ⟨hb, List.mem_cons_self _ _⟩
    · simp [find_block, hb] at h
      exact ⟨(ih h).1, List.mem_cons_of_mem _ (ih h).2⟩

theorem sumSizes_unlink (ptr : Nat) (l : List MemoryBlock) (curr : MemoryBlock)
    (h : find_block ptr l = some curr) :
    sumSizes l = curr.size + sumSizes (unlink_block ptr l) := by
  induction l with
  | nil => simp [find_block] at h
  | cons b bs ih =>
    by_cases hb : b.ptr = ptr
    · simp [find_block, hb] at h
      subst h
      simp [unlink_block, hb, sumSizes]
    · simp [find_block, hb] at h
      simp [unlink_block, hb, sumSizes, ih h]
      omega

theorem addresses_unlink_sublist (ptr : Nat) (l : List MemoryBlock) :
    List.Sublist (addresses (unlink_block ptr l)) (addresses l) := by
  induction l with
  | nil => simp [unlink_block, addresses]
  | cons b bs ih =>
    by_cases hb : b.ptr = ptr
    · simp [unlink_block, hb, addresses]
    · simp only [unlink_block, hb, addresses, ne_eq, not_false_eq_true, if_true, List.map_cons]
      exact List.Sublist.cons₂ _ ih

theorem not_mem_addresses_unlink (ptr : Nat) (l : List MemoryBlock)
    (hnd : (addresses l).Nodup) : ptr ∉ addresses (unlink_block ptr l) := by
  induction l with
  | nil => simp [unlink_block, addresses]
  | cons b bs ih =>
    have hnd2 : b.ptr ∉ addresses bs ∧ (addresses bs).Nodup := by
      simpa [addresses] using hnd
    by_cases hb : b.ptr = ptr
    · simp only [unlink_block, hb, ne_eq, not_true_eq_false, if_false]
      rw [← hb]
      exact hnd2.1
    · simp only [unlink_block, hb, addresses, ne_eq, not_false_eq_true, if_true, List.map_cons,
        List.mem_cons, not_or]
      exact ⟨Ne.symm hb, ih hnd2.2⟩

/-- The running counter is the live total modulo `2 ^ 64` after every step. -/
theorem step_usage_mod (g : Globals) (c : Call)
    (h : g.g_analytics.memory_usage = sumSizes g.g_memory_block_head % SIZE_MOD) :
    (step g c).g_analytics.memory_usage =
      sumSizes (step g c).g_memory_block_head % SIZE_MOD := by
  cases c with
  | malloc size filename line ptr block =>
    by_cases hp : ptr = 0
    · simp [step, tracked_malloc, hp, h]
    · cases block with
      | false => simp [step, tracked_malloc, hp, h]
      | true =>
        simp only [step, tracked_malloc, hp, ne_eq, not_false_eq_true, if_true, sumSizes, h]
        simp only [Bool.true_eq_false, if_false]
        rw [wadd_mod_left, Nat.add_comm]
  | free ptr =>
    by_cases hp : ptr = 0
    · simp [step, tracked_free, hp, h]
    · cases hf : find_block ptr g.g_memory_block_head with
      | none => simp [step, tracked_free, hp, hf, h]
      | some curr =>
        simp only [step, tracked_free, hp, hf, if_false]
        rw [h, sumSizes_unlink ptr _ curr hf, wsub_cancel]

theorem run_usage_mod (cs : List Call) (g : Globals)
    (h : g.g_analytics.memory_usage = sumSizes g.g_memory_block_head % SIZE_MOD) :
    (run g cs).g_analytics.memory_usage =
      sumSizes (run g cs).g_memory_block_head % SIZE_MOD := by
  induction cs generalizing g with
  | nil => simpa [run] using h
  | cons c cs ih => exact ih (step g c) (step_usage_mod g c h)

/-- C1. Starting from the empty tracker, after every finite sequence of
`tracked_malloc` and `tracked_free` calls, whatever the allocator answered,
`memory_usage` equals the sum of the sizes of the records in the registry as
soon as that sum is below `2 ^ 64`. -/
theorem memory_usage_eq_live_total (cs : List Call)
    (h : sumSizes (run Globals.init cs).g_memory_block_head < SIZE_MOD) :
    (run Globals.init cs).g_analytics.memory_usage =
      sumSizes (run Globals.init cs).g_memory_block_head := by
  rw [run_usage_mod cs Globals.init (by decide)]
  exact Nat.mod_eq_of_lt h

/-- An instance of C1 on the scenario: 800 bytes stay live. -/
theorem memory_usage_eq_live_total_witness :
    sumSizes (run Globals.init leakScenario).g_memory_block_head < SIZE_MOD ∧
      (run Globals.init leakScenario).g_analytics.memory_usage = 800 :=
  ⟨by decide, memory_usage_eq_live_total leakScenario (by decide)⟩

theorem step_peak (g : Globals) (c : Call) (h : CountersOk g)
    (hb : sumSizes (step g c).g_memory_block_head < SIZE_MOD) :
    CountersOk (step g c) ∧
      (step g c).g_analytics.peak_usage =
        max g.g_analytics.peak_usage (step g c).g_analytics.memory_usage := by
  obtain ⟨h1, h2, h3⟩ := h
  have hsame : CountersOk g ∧ g.g_analytics.peak_usage =
      max g.g_analytics.peak_usage g.g_analytics.memory_usage :=
    ⟨⟨h1, h2, h3⟩, (Nat.max_eq_left h3).symm⟩
  cases c with
  | malloc size filename line ptr block =>
    by_cases hp : ptr = 0
    · simpa [step, tracked_malloc, hp] using hsame
    · cases block with
      | false => simpa [step, tracked_malloc, hp] using hsame
      | true =>
        simp only [step, tracked_malloc, hp, ne_eq, not_false_eq_true, if_true, sumSizes,
          Bool.true_eq_false, if_false] at hb ⊢
        have hw : wadd g.g_analytics.memory_usage size = g.g_analytics.memory_usage + size :=
          wadd_of_lt _ _ (by rw [h1]; omega)
        simp only [CountersOk, sumSizes, hw]
        refine ⟨⟨by omega, hb, ?_⟩, ?_⟩
        · split <;> omega
        · split <;> omega
  | free ptr =>
    by_cases hp : ptr = 0
    · simpa [step, tracked_free, hp] using hsame
    · cases hf : find_block ptr g.g_memory_block_head with
      | none => simpa [step, tracked_free, hp, hf] using hsame
      | some curr =>
        have hs := sumSizes_unlink ptr _ curr hf
        have hw : wsub g.g_analytics.memory_usage curr.size =
            g.g_analytics.memory_usage - curr.size :=
          wsub_of_le _ _ (by omega) (by omega)
        simp only [step, tracked_free, hp, hf, if_false, CountersOk, hw]
        refine ⟨⟨by omega, by omega, by omega⟩, ?_⟩
        rw [Nat.max_eq_left (by omega)]

theorem run_peak (cs : List Call) (g : Globals) (h : CountersOk g) (hb : liveBounded g cs) :
    CountersOk (run g cs) ∧
      (run g cs).g_analytics.peak_usage = maxUsage g.g_analytics.peak_usage (trace g cs) := by
  induction cs generalizing g with
  | nil => exact ⟨h, by simp [run, trace, maxUsage]⟩
  | cons c cs ih =>
    have hhead : sumSizes (step g c).g_memory_block_head < SIZE_MOD :=
      hb (step g c) (by simp [trace])
    have htail : liveBounded (step g c) cs := by
      intro s hs
      exact hb s (by simp [trace, hs])
    obtain ⟨hok, hpk⟩ := step_peak g c h hhead
    obtain ⟨hok2, hpk2⟩ := ih (step g c) hok htail
    refine ⟨hok2, ?_⟩
    simp only [run, trace, maxUsage, List.foldl_cons]
    rw [hpk2, hpk]
    rfl

/-- C2. Starting from the empty tracker, after every finite sequence of
`tracked_malloc` and `tracked_free` calls along which the total live size stays
below `2 ^ 64`, `peak_usage` is the maximum of the `memory_usage` values
observed after each call so far (0 before the first call), and in particular
`peak_usage >= memory_usage`. -/
theorem peak_usage_eq_max_observed (cs : List Call) (hb : liveBounded Globals.init cs) :
    (run Globals.init cs).g_analytics.peak_usage = maxUsage 0 (trace Globals.init cs) ∧
      (run Globals.init cs).g_analytics.memory_usage ≤
        (run Globals.init cs).g_analytics.peak_usage := by
  have h0 : CountersOk Globals.init := by
    refine ⟨by decide, by decide, by decide⟩
  obtain ⟨hok, hpk⟩ := run_peak cs Globals.init h0 hb
  exact ⟨hpk, hok.2.2⟩

/-- An instance of C2 on the scenario: the peak is 1200 while 800 bytes stay live. -/
theorem peak_usage_eq_max_observed_witness :
    liveBounded Globals.init leakScenario ∧
      (run Globals.init leakScenario).g_analytics.peak_usage = 1200 ∧
      maxUsage 0 (trace Globals.init leakScenario) = 1200 :=
  ⟨by decide,
    (peak_usage_eq_max_observed leakScenario (by decide)).1.trans (by decide), by decide⟩

theorem wrapInt_of_range (x : Int) (h0 : 0 ≤ x) (h1 : x < 2 ^ 31) : wrapInt x = x := by
  unfold wrapInt INT_MOD
  norm_num at h1 ⊢
  omega

theorem sumSizes_filter_cons_le (b : MemoryBlock) (bs : List MemoryBlock)
    (p : MemoryBlock → Bool) :
    sumSizes (bs.filter p) ≤ sumSizes ((b :: bs).filter p) := by
  by_cases hp : p b = true
  · simp [List.filter_cons, hp, sumSizes]
  · simp [List.filter_cons, hp]

/-- The scan loop, started with any accumulator that leaves room for the
matching records, appends their lines and adds their number and sizes. -/
theorem detect_loop_spec (file_name : String) (l : List MemoryBlock) (acc : LeakScan)
    (h0 : 0 ≤ acc.leak_count)
    (hc : acc.leak_count +
      ((l.filter (fun b => decide (b.file = file_name))).length : Int) < 2 ^ 31)
    (hs : acc.total_leaked +
      sumSizes (l.filter (fun b => decide (b.file = file_name))) < SIZE_MOD) :
    detect_loop file_name l acc =
      { lines := acc.lines ++ (l.filter (fun b => decide (b.file = file_name))).map lineOf
        leak_count := acc.leak_count +
          ((l.filter (fun b => decide (b.file = file_name))).length : Int)
        total_leaked := acc.total_leaked +
          sumSizes (l.filter (fun b => decide (b.file = file_name))) } := by
  induction l generalizing acc with
  | nil => simp [detect_loop, sumSizes]
  | cons b bs ih =>
    by_cases hb : b.file = file_name
    · simp only [List.filter_cons, hb, decide_True, if_true, List.length_cons, sumSizes,
        Nat.cast_add, Nat.cast_one] at hc hs
      have hw : wrapInt (acc.leak_count + 1) = acc.leak_count + 1 :=
        wrapInt_of_range _ (by omega) (by omega)
      have ha : wadd acc.total_leaked b.size = acc.total_leaked + b.size :=
        wadd_of_lt _ _ (by omega)
      simp only [detect_loop, hb, if_true, hw, ha]
      rw [ih _ (by simp; omega) (by simp; omega) (by simp; omega)]
      simp [List.filter_cons, hb, sumSizes, lineOf]
      constructor <;> omega
    · simp only [List.filter_cons, hb, decide_False, Bool.false_eq_true, if_false] at hc hs
      simp only [detect_loop, hb, if_false]
      rw [ih acc h0 hc hs]
      simp [List.filter_cons, hb]

/-- C3. For every registry and every file name, as long as the matching records
are fewer than `2 ^ 31` (the counter is an `int`) and their sizes sum to less
than `2 ^ 64`, `detect_memory_leaks` reports exactly the live records whose
origin file is the filter, in registry order: none is skipped and no other
record is reported; its count is the number of reported records and its total
is the sum of their sizes. -/
theorem detect_memory_leaks_exact (g : Globals) (file_name : String)
    (hc : ((liveAt g file_name).length : Int) < 2 ^ 31)
    (hs : sumSizes (liveAt g file_name) < SIZE_MOD) :
    (detect_memory_leaks g file_name).lines = (liveAt g file_name).map lineOf ∧
      (detect_memory_leaks g file_name).leak_count =
        ((detect_memory_leaks g file_name).lines.length : Int) ∧
      (detect_memory_leaks g file_name).total_leaked = sumSizes (liveAt g file_name) := by
  unfold liveAt at hc hs
  have h := detect_loop_spec file_name g.g_memory_block_head
    { lines := [], leak_count := 0, total_leaked := 0 } (by simp) (by simpa using hc)
    (by simpa using hs)
  unfold detect_memory_leaks liveAt
  rw [h]
  simp

/-- The scenario of C3: after 400 bytes from `a.c`, 800 bytes from `b.c` and the
release of the first block, the scan for `a.c` reports nothing and the scan for
`b.c` reports one record of 800 bytes. -/
theorem detect_memory_leaks_exact_witness :
    ((detect_memory_leaks (run Globals.init leakScenario) "a.c").lines = [] ∧
      (detect_memory_leaks (run Globals.init leakScenario) "a.c").leak_count = (0 : Nat) ∧
      (detect_memory_leaks (run Globals.init leakScenario) "a.c").total_leaked = 0) ∧
    ((detect_memory_leaks (run Globals.init leakScenario) "b.c").lines =
        [{ size := 800, file := "b.c", line := 402 }] ∧
      (detect_memory_leaks (run Globals.init leakScenario) "b.c").leak_count = (1 : Nat) ∧
      (detect_memory_leaks (run Globals.init leakScenario) "b.c").total_leaked = 800) :=
  ⟨detect_memory_leaks_exact (run Globals.init leakScenario) "a.c" (by decide) (by decide),
   detect_memory_leaks_exact (run Globals.init leakScenario) "b.c" (by decide) (by decide)⟩

theorem tracked_free_absent (g : Globals) (ptr : Nat)
    (h : ptr = 0 ∨ ptr ∉ addresses g.g_memory_block_head) :
    tracked_free g ptr = g := by
  rcases h with h | h
  · simp [tracked_free, h]
  · have hf := (find_block_none ptr g.g_memory_block_head).mpr h
    simp [tracked_free, hf]

/-- C6. When the underlying allocation fails (`malloc(size)` returns `NULL`),
`tracked_malloc` returns the null handle and the globals it was given: the
registry, `memory_usage` and `peak_usage` are exactly as they were. -/
theorem tracked_malloc_out_of_memory (g : Globals) (size : Nat) (filename : String)
    (line : Int) (block : Bool) :
    tracked_malloc g size filename line 0 block = (0, g) := by
  simp [tracked_malloc]

theorem step_nodup (g : Globals) (c : Call) (hf : freshCall g c = true)
    (hnd : (addresses g.g_memory_block_head).Nodup) :
    (addresses (step g c).g_memory_block_head).Nodup := by
  cases c with
  | malloc size filename line ptr block =>
    by_cases hp : ptr = 0
    · simpa [step, tracked_malloc, hp] using hnd
    · cases block with
      | false => simpa [step, tracked_malloc, hp] using hnd
      | true =>
        have hfresh : ptr ∉ addresses g.g_memory_block_head := by
          simpa [freshCall, hp] using hf
        simp only [step, tracked_malloc, hp, ne_eq, not_false_eq_true, if_true,
          Bool.true_eq_false, if_false, addresses, List.map_cons, List.nodup_cons]
        exact ⟨hfresh, hnd⟩
  | free ptr =>
    by_cases hp : ptr = 0
    · simpa [step, tracked_free, hp] using hnd
    · cases hfb : find_block ptr g.g_memory_block_head with
      | none => simpa [step, tracked_free, hp, hfb] using hnd
      | some curr =>
        simp only [step, tracked_free, hp, hfb, if_false]
        exact List.Nodup.sublist (addresses_unlink_sublist ptr _) hnd

theorem run_nodup (cs : List Call) (g : Globals) (hf : freshCalls g cs = true)
    (hnd : (addresses g.g_memory_block_head).Nodup) :
    (addresses (run g cs).g_memory_block_head).Nodup := by
  induction cs generalizing g with
  | nil => simpa [run] using hnd
  | cons c cs ih =>
    simp only [freshCalls, Bool.and_eq_true] at hf
    exact ih (step g c) hf.2 (step_nodup g c hf.1 hnd)

theorem tracked_free_idem_of_nodup (g : Globals) (ptr : Nat)
    (hnd : (addresses g.g_memory_block_head).Nodup) :
    tracked_free (tracked_free g ptr) ptr = tracked_free g ptr := by
  apply tracked_free_absent
  by_cases hp : ptr = 0
  · exact Or.inl hp
  · right
    cases hfb : find_block ptr g.g_memory_block_head with
    | none =>
      simp only [tracked_free, hp, hfb, if_false]
      exact (find_block_none ptr _).mp hfb
    | some curr =>
      simp only [tracked_free, hp, hfb, if_false]
      exact not_mem_addresses_unlink ptr _ hnd

/-- C8. In every tracker state reached from the empty registry by
`tracked_malloc` and `tracked_free` calls, the allocator never returning an
address that a record still carries, the registry holds at most one record per
address. -/
theorem registry_addresses_unique (cs : List Call)
    (hf : freshCalls Globals.init cs = true) :
    (addresses (run Globals.init cs).g_memory_block_head).Nodup :=
  run_nodup cs Globals.init hf (by decide)

/-- An instance of C8: the address 4096 is handed out again after its release. -/
theorem registry_addresses_unique_witness :
    freshCalls Globals.init (leakScenario ++ [Call.malloc 16 "a.c" 7 4096 true]) = true ∧
      (addresses (run Globals.init
        (leakScenario ++ [Call.malloc 16 "a.c" 7 4096 true])).g_memory_block_head).Nodup :=
  ⟨by decide,
    registry_addresses_unique (leakScenario ++ [Call.malloc 16 "a.c" 7 4096 true]) (by decide)⟩

/-! ## The allocator: claims C4, C5 and C7 -/

theorem tracked_free_call_cases (m : Machine) (ptr : Nat) :
    (ptr = 0 → tracked_free_call m ptr = some m) ∧
      (ptr ≠ 0 → ptr ∈ m.live →
        tracked_free_call m ptr =
          some { globals := tracked_free m.globals ptr, live := m.live.erase ptr }) ∧
      (ptr ≠ 0 → ptr ∉ m.live → tracked_free_call m ptr = none) := by
  refine ⟨fun h => ?_, fun h hl => ?_, fun h hl => ?_⟩
  · simp [tracked_free_call, h]
  · simp [tracked_free_call, free_block, h, hl]
  · simp [tracked_free_call, free_block, h, hl]

/-- C4 as stated fails: after the leak scenario no record carries the address
12288, and it is not a live block either; `tracked_free` passes it to `free`,
whose behaviour is then undefined. -/
theorem tracked_free_unknown_undefined :
    runM Machine.init leakScenario = some leakMachine ∧
      12288 ∉ addresses leakMachine.globals.g_memory_block_head ∧
      tracked_free_call leakMachine 12288 = none := by
  decide

/-- C4, amended. For every state and every address that is null or is not the
address of any record in the registry, `tracked_free` leaves the globals, so the
registry, `memory_usage` and `peak_usage`, unchanged. The call is harmless for
the null address, where it returns at once, and for a live block of the
allocator, which it releases; for any other address its final `free(ptr)` is
undefined. -/
theorem tracked_free_unknown_noop (m : Machine) (ptr : Nat)
    (h : ptr = 0 ∨ ptr ∉ addresses m.globals.g_memory_block_head) :
    (tracked_free m.globals ptr = m.globals ∧
      (tracked_free m.globals ptr).g_memory_block_head = m.globals.g_memory_block_head ∧
      (tracked_free m.globals ptr).g_analytics.memory_usage =
        m.globals.g_analytics.memory_usage ∧
      (tracked_free m.globals ptr).g_analytics.peak_usage =
        m.globals.g_analytics.peak_usage) ∧
    (ptr = 0 → tracked_free_call m ptr = some m) ∧
    (ptr ≠ 0 → ptr ∈ m.live →
      tracked_free_call m ptr = some { globals := m.globals, live := m.live.erase ptr }) ∧
    (ptr ≠ 0 → ptr ∉ m.live → tracked_free_call m ptr = none) := by
  have hg := tracked_free_absent m.globals ptr h
  obtain ⟨c1, c2, c3⟩ := tracked_free_call_cases m ptr
  refine ⟨?_, c1, fun hp hl => ?_, c3⟩
  · rw [hg]
    exact ⟨rfl, rfl, rfl, rfl⟩
  · rw [c2 hp hl, hg]

/-- An instance of the amended C4: the block at 4096 that `tracked_malloc`
returned without a record is released by `tracked_free`, and the globals stay as
they are. -/
theorem tracked_free_unknown_noop_witness :
    (4096 = 0 ∨ 4096 ∉ addresses untrackedMachine.globals.g_memory_block_head) ∧
      4096 ∈ untrackedMachine.live ∧
      tracked_free_call untrackedMachine 4096 =
        some { globals := untrackedMachine.globals, live := [] } :=
  ⟨by decide, by decide,
    ((tracked_free_unknown_noop untrackedMachine 4096 (by decide)).2.2.1 (by decide)
      (by decide)).trans (by decide)⟩

/-- C5 as stated fails: when the bookkeeping record cannot be allocated,
`tracked_malloc` still returns the non-null block, but the registry holds no
record for it and `memory_usage` has not moved. -/
theorem tracked_malloc_untracked_block :
    (tracked_malloc Globals.init 400 "a.c" 401 4096 false).1 ≠ 0 ∧
      4096 ∉ addresses (tracked_malloc Globals.init 400 "a.c" 401 4096 false).2.g_memory_block_head ∧
      (tracked_malloc Globals.init 400 "a.c" 401 4096 false).2.g_analytics.memory_usage ≠
        Globals.init.g_analytics.memory_usage + 400 := by
  decide

theorem tracked_malloc_tracked (g : Globals) (size : Nat) (filename : String) (line : Int)
    (ptr : Nat) (hptr : ptr ≠ 0) :
    (tracked_malloc g size filename line ptr true).1 = ptr ∧
      (tracked_malloc g size filename line ptr true).2.g_memory_block_head =
        { ptr := ptr, size := size, file := filename, line := line } :: g.g_memory_block_head ∧
      (tracked_malloc g size filename line ptr true).2.g_analytics.memory_usage =
        (g.g_analytics.memory_usage + size) % SIZE_MOD ∧
      (g.g_analytics.memory_usage + size < SIZE_MOD →
        (tracked_malloc g size filename line ptr true).2.g_analytics.memory_usage =
          g.g_analytics.memory_usage + size) ∧
      (tracked_malloc g size filename line ptr true).2.g_analytics.peak_usage =
        max g.g_analytics.peak_usage
          (tracked_malloc g size filename line ptr true).2.g_analytics.memory_usage := by
  simp only [tracked_malloc, hptr, ne_eq, not_false_eq_true, if_true, Bool.true_eq_false,
    if_false, wadd]
  refine ⟨trivial, trivial, trivial, fun h => Nat.mod_eq_of_lt h, ?_⟩
  split
  · rw [Nat.max_eq_right (by omega)]
  · rw [Nat.max_eq_left (by omega)]

/-- C5, amended. Whenever `malloc(size)` returns a block, `tracked_malloc`
returns its address. If the bookkeeping record is obtained too, the registry
afterwards is the old registry with a record of that address, size and origin
site in front, `memory_usage` has increased by `size` in unsigned 64-bit
arithmetic (by exactly `size` when the sum stays below `2 ^ 64`), and
`peak_usage` is the maximum of the old `peak_usage` and the new `memory_usage`.
If the record allocation fails, the globals are exactly as they were. -/
theorem tracked_malloc_registers (g : Globals) (size : Nat) (filename : String) (line : Int)
    (ptr : Nat) (block : Bool) (hptr : ptr ≠ 0) :
    (tracked_malloc g size filename line ptr block).1 = ptr ∧
      (block = true →
        (tracked_malloc g size filename line ptr block).2.g_memory_block_head =
          { ptr := ptr, size := size, file := filename, line := line } ::
            g.g_memory_block_head ∧
        (tracked_malloc g size filename line ptr block).2.g_analytics.memory_usage =
          (g.g_analytics.memory_usage + size) % SIZE_MOD ∧
        (g.g_analytics.memory_usage + size < SIZE_MOD →
          (tracked_malloc g size filename line ptr block).2.g_analytics.memory_usage =
            g.g_analytics.memory_usage + size) ∧
        (tracked_malloc g size filename line ptr block).2.g_analytics.peak_usage =
          max g.g_analytics.peak_usage
            (tracked_malloc g size filename line ptr block).2.g_analytics.memory_usage) ∧
      (block = false → (tracked_malloc g size filename line ptr block).2 = g) := by
  cases block with
  | false =>
    simp [tracked_malloc, hptr]
  | true =>
    have h := tracked_malloc_tracked g size filename line ptr hptr
    exact ⟨h.1, fun _ => h.2, fun hb => absurd hb (by decide)⟩

/-- Two instances of the amended C5 on the empty tracker: 400 bytes from `a.c`
with a record, and the same call without one. -/
theorem tracked_malloc_registers_witness :
    (4096 ≠ 0) ∧
      (tracked_malloc Globals.init 400 "a.c" 401 4096 true).2.g_memory_block_head =
        [{ ptr := 4096, size := 400, file := "a.c", line := 401 }] ∧
      (tracked_malloc Globals.init 400 "a.c" 401 4096 true).2.g_analytics.memory_usage = 400 ∧
      (tracked_malloc Globals.init 400 "a.c" 401 4096 true).2.g_analytics.peak_usage = 400 ∧
      (tracked_malloc Globals.init 400 "a.c" 401 4096 false).2 = Globals.init :=
  have h := tracked_malloc_registers Globals.init 400 "a.c" 401 4096 true (by decide)
  have h2 := tracked_malloc_registers Globals.init 400 "a.c" 401 4096 false (by decide)
  ⟨by decide, (h.2.1 rfl).1, (h.2.1 rfl).2.2.1 (by decide), by decide, h2.2.2 rfl⟩

theorem stepM_globals (m m1 : Machine) (c : Call) (h : stepM m c = some m1) :
    m1.globals = step m.globals c := by
  cases c with
  | malloc size filename line ptr block =>
    simp only [stepM, tracked_malloc_call, Option.some.injEq] at h
    rw [← h]
    rfl
  | free ptr =>
    simp only [stepM, tracked_free_call] at h
    by_cases hp : ptr = 0
    · simp only [hp, if_true, Option.some.injEq] at h
      rw [← h]
      simp [step, tracked_free, hp]
    · simp only [hp, if_false] at h
      cases hf : free_block m.live ptr with
      | none => simp [hf] at h
      | some l =>
        simp only [hf, Option.some.injEq] at h
        rw [← h]
        rfl

theorem runM_globals (cs : List Call) (m m1 : Machine) (h : runM m cs = some m1) :
    m1.globals = run m.globals cs := by
  induction cs generalizing m with
  | nil =>
    simp only [runM, Option.some.injEq] at h
    rw [← h]
    rfl
  | cons c cs ih =>
    simp only [runM] at h
    cases hs : stepM m c with
    | none => simp [hs] at h
    | some m2 =>
      simp only [hs] at h
      rw [ih m2 h, stepM_globals m m2 c hs]
      rfl

theorem stepM_consistent (m m1 : Machine) (c : Call) (hc : Consistent m)
    (hf : freshAnswer m c = true) (hs : stepM m c = some m1) : Consistent m1 := by
  obtain ⟨hl, hr, hsub⟩ := hc
  cases c with
  | malloc size filename line ptr block =>
    simp only [stepM, tracked_malloc_call, Option.some.injEq] at hs
    rw [← hs]
    by_cases hp : ptr = 0
    · simpa [Consistent, tracked_malloc, hp] using ⟨hl, hr, hsub⟩
    · have hfresh : ptr ∉ m.live := by simpa [freshAnswer, hp] using hf
      have hnr : ptr ∉ addresses m.globals.g_memory_block_head := fun hin => hfresh (hsub ptr hin)
      cases block with
      | false =>
        simp only [Consistent, tracked_malloc, hp, ne_eq, not_false_eq_true, if_true,
          List.nodup_cons]
        exact ⟨⟨hfresh, hl⟩, hr, fun p hpin => List.mem_cons_of_mem _ (hsub p hpin)⟩
      | true =>
        simp only [Consistent, tracked_malloc, hp, ne_eq, not_false_eq_true, if_true,
          Bool.true_eq_false, if_false, List.nodup_cons, addresses, List.map_cons,
          List.mem_cons]
        refine ⟨⟨hfresh, hl⟩, ⟨hnr, hr⟩, fun p hpin => ?_⟩
        rcases hpin with h1 | h2
        · exact Or.inl h1
        · exact Or.inr (hsub p h2)
  | free ptr =>
    simp only [stepM, tracked_free_call] at hs
    by_cases hp : ptr = 0
    · simp only [hp, if_true, Option.some.injEq] at hs
      rw [← hs]
      exact ⟨hl, hr, hsub⟩
    · simp only [hp, if_false, free_block] at hs
      by_cases hin : ptr ∈ m.live
      · simp only [hin, if_true, Option.some.injEq] at hs
        rw [← hs]
        refine ⟨hl.erase ptr, ?_, fun p hpin => ?_⟩
        · show (addresses (tracked_free m.globals ptr).g_memory_block_head).Nodup
          have := step_nodup m.globals (Call.free ptr) rfl hr
          simpa [step] using this
        · have hpin2 : p ∈ addresses (tracked_free m.globals ptr).g_memory_block_head := hpin
          cases hfb : find_block ptr m.globals.g_memory_block_head with
          | none =>
            simp only [tracked_free, hp, hfb, if_false] at hpin2
            have hne : p ≠ ptr := by
              intro heq
              rw [heq] at hpin2
              exact ((find_block_none ptr _).mp hfb) hpin2
            exact (List.mem_erase_of_ne hne).mpr (hsub p hpin2)
          | some curr =>
            simp only [tracked_free, hp, hfb, if_false] at hpin2
            have hne : p ≠ ptr := by
              intro heq
              rw [heq] at hpin2
              exact not_mem_addresses_unlink ptr _ hr hpin2
            have hmem : p ∈ addresses m.globals.g_memory_block_head :=
              (addresses_unlink_sublist ptr _).subset hpin2
            exact (List.mem_erase_of_ne hne).mpr (hsub p hmem)
      · simp [hin] at hs

theorem runM_consistent (cs : List Call) (m m1 : Machine) (hc : Consistent m)
    (hf : freshAnswers m cs = true) (hr : runM m cs = some m1) : Consistent m1 := by
  induction cs generalizing m with
  | nil =>
    simp only [runM, Option.some.injEq] at hr
    rw [← hr]
    exact hc
  | cons c cs ih =>
    simp only [runM] at hr
    simp only [freshAnswers, Bool.and_eq_true] at hf
    cases hs : stepM m c with
    | none => simp [hs] at hr
    | some m2 =>
      simp only [hs] at hr hf
      exact ih m2 (stepM_consistent m m2 c hc hf.1 hs) hf.2 hr

theorem consistent_init : Consistent Machine.init := by
  refine ⟨by simp [Machine.init], by simp [Machine.init, Globals.init, addresses], ?_⟩
  intro p hp
  simp [Machine.init, Globals.init, addresses] at hp

/-- C7 as stated fails: after the leak scenario a first `tracked_free` of the
block at 8192 unlinks its record and releases it; the second `tracked_free` of
the same handle passes the released address to `free` again, a double free,
whose behaviour is undefined. -/
theorem tracked_free_twice_undefined :
    runM Machine.init leakScenario = some leakMachine ∧
      tracked_free_call leakMachine 8192 =
        some { globals := tracked_free leakMachine.globals 8192, live := [] } ∧
      tracked_free_call { globals := tracked_free leakMachine.globals 8192, live := [] } 8192 =
        none := by
  decide

/-- C7, amended. In every state reached from the empty tracker by
`tracked_malloc` and `tracked_free` calls (the allocator never handing out a
live address, no call undefined) and for every handle, the bookkeeping of a
second `tracked_free` of the handle changes nothing: the registry,
`memory_usage` and `peak_usage` are as the first call left them. As a whole the
call is idempotent for the null handle only: for a non-null handle the first
call, when it is defined, releases the block, and the second call passes the
released address to `free` again, which is undefined. -/
theorem tracked_free_idempotent (cs : List Call) (m : Machine) (ptr : Nat)
    (hf : freshAnswers Machine.init cs = true) (hr : runM Machine.init cs = some m) :
    m.globals = run Globals.init cs ∧
      tracked_free (tracked_free m.globals ptr) ptr = tracked_free m.globals ptr ∧
      (ptr = 0 → tracked_free_call m ptr = some m) ∧
      (ptr ≠ 0 → ∀ m1 : Machine, tracked_free_call m ptr = some m1 →
        m1.globals = tracked_free m.globals ptr ∧ tracked_free m1.globals ptr = m1.globals ∧
          tracked_free_call m1 ptr = none) := by
  obtain ⟨hl, hreg, _⟩ := runM_consistent cs Machine.init m consistent_init hf hr
  obtain ⟨c1, c2, c3⟩ := tracked_free_call_cases m ptr
  have hidem := tracked_free_idem_of_nodup m.globals ptr hreg
  refine ⟨runM_globals cs Machine.init m hr, hidem, c1, fun hp m1 h1 => ?_⟩
  by_cases hin : ptr ∈ m.live
  · rw [c2 hp hin] at h1
    have hm1 : m1 = { globals := tracked_free m.globals ptr, live := m.live.erase ptr } :=
      (Option.some.inj h1).symm
    subst hm1
    refine ⟨rfl, hidem, ?_⟩
    have hnot : ptr ∉ m.live.erase ptr := fun hmem => (List.Nodup.not_mem_erase hl) hmem
    exact (tracked_free_call_cases _ ptr).2.2 hp hnot
  · rw [c3 hp hin] at h1
    exact absurd h1 (by simp)

/-- An instance of the amended C7: the 800-byte block of the scenario released
twice. -/
theorem tracked_free_idempotent_witness :
    (freshAnswers Machine.init leakScenario = true ∧
      runM Machine.init leakScenario = some leakMachine) ∧
      (tracked_free leakMachine.globals 8192).g_memory_block_head = [] ∧
      tracked_free (tracked_free leakMachine.globals 8192) 8192 =
        tracked_free leakMachine.globals 8192 :=
  ⟨⟨by decide, by decide⟩, by decide,
    (tracked_free_idempotent leakScenario leakMachine 8192 (by decide) (by decide)).2.1⟩

/-! ## Binary64 rounding -/

namespace Dbl

theorem pow2_eq (e : Int) : pow2 e = (2 : ℚ) ^ e := by
  unfold pow2
  split
  · rename_i h
    have : ((e.toNat : ℤ)) = e := Int.toNat_of_nonneg h
    conv_rhs => rw [← this]
    rw [zpow_natCast]
    push_cast
    rfl
  · rename_i h
    have hneg : 0 ≤ -e := by omega
    have : (((-e).toNat : ℤ)) = -e := Int.toNat_of_nonneg hneg
    have h2 : e = -(((-e).toNat : ℤ)) := by omega
    conv_rhs => rw [h2]
    rw [zpow_neg, zpow_natCast]
    push_cast
    rw [one_div]

theorem pow2_pos (e : Int) : 0 < pow2 e := by
  rw [pow2_eq]
  exact zpow_pos (by norm_num) e

theorem pow2_add (a b : Int) : pow2 (a + b) = pow2 a * pow2 b := by
  simp only [pow2_eq]
  exact zpow_add₀ (by norm_num) a b

theorem pow2_le (a b : Int) (h : a ≤ b) : pow2 a ≤ pow2 b := by
  simp only [pow2_eq]
  exact zpow_le_zpow_right₀ (by norm_num) h

theorem pow2_lt (a b : Int) (h : a < b) : pow2 a < pow2 b := by
  simp only [pow2_eq]
  exact zpow_lt_zpow_right₀ (by norm_num) h

theorem pow2_lt_imp (a b : Int) (h : pow2 a < pow2 b) : a < b := by
  by_contra hc
  have := pow2_le b a (by omega)
  linarith

theorem pow2_natCast (n : Nat) : pow2 (n : Int) = ((2 ^ n : Nat) : ℚ) := by
  rw [pow2_eq, zpow_natCast]
  push_cast
  rfl

theorem log2_fuel_spec (fuel n : Nat) (hf : n ≤ fuel) (hn : n ≠ 0) :
    2 ^ log2_fuel fuel n ≤ n ∧ n < 2 ^ (log2_fuel fuel n + 1) := by
  induction fuel generalizing n with
  | zero => omega
  | succ fuel ih =>
    unfold log2_fuel
    by_cases h2 : 2 ≤ n
    · simp only [h2, if_true]
      have hdiv : n / 2 ≤ fuel := by omega
      have hne : n / 2 ≠ 0 := by omega
      obtain ⟨l, u⟩ := ih (n / 2) hdiv hne
      constructor
      · rw [Nat.pow_succ]
        omega
      · rw [Nat.pow_succ]
        omega
    · simp only [h2, if_false]
      constructor <;> simp <;> omega

theorem nlog2_spec (n : Nat) (hn : n ≠ 0) : 2 ^ nlog2 n ≤ n ∧ n < 2 ^ (nlog2 n + 1) :=
  log2_fuel_spec n n (le_refl n) hn

theorem ilog2_spec (x : ℚ) (hx : 0 < x) :
    pow2 (ilog2 x) ≤ x ∧ x < pow2 (ilog2 x + 1) := by
  have hnum : 0 < x.num := Rat.num_pos.mpr hx
  have hden : 0 < x.den := x.den_pos
  obtain ⟨ln, un⟩ := nlog2_spec x.num.toNat (by omega)
  obtain ⟨ld, ud⟩ := nlog2_spec x.den (by omega)
  have hxeq : x = (x.num.toNat : ℚ) / (x.den : ℚ) := by
    have h1 : ((x.num.toNat : ℤ) : ℚ) = (x.num : ℚ) := by
      rw [Int.toNat_of_nonneg (le_of_lt hnum)]
    have h2 : ((x.num.toNat : ℕ) : ℚ) = ((x.num.toNat : ℤ) : ℚ) := by push_cast; rfl
    rw [h2, h1]
    exact (Rat.num_div_den x).symm
  have hdq : (0 : ℚ) < (x.den : ℚ) := by exact_mod_cast hden
  have lnq : ((2 : ℚ) ^ nlog2 x.num.toNat) ≤ (x.num.toNat : ℚ) := by exact_mod_cast ln
  have unq : (x.num.toNat : ℚ) < ((2 : ℚ) ^ (nlog2 x.num.toNat + 1)) := by exact_mod_cast un
  have ldq : ((2 : ℚ) ^ nlog2 x.den) ≤ (x.den : ℚ) := by exact_mod_cast ld
  have udq : (x.den : ℚ) < ((2 : ℚ) ^ (nlog2 x.den + 1)) := by exact_mod_cast ud
  have hp1 : (0 : ℚ) < (2 : ℚ) ^ nlog2 x.num.toNat := by positivity
  have hp2 : (0 : ℚ) < (2 : ℚ) ^ nlog2 x.den := by positivity
  -- the guess g and the two candidate bounds
  have hg : pow2 ((nlog2 x.num.toNat : Int) - (nlog2 x.den : Int)) =
      (2 : ℚ) ^ nlog2 x.num.toNat / (2 : ℚ) ^ nlog2 x.den := by
    rw [pow2_eq, zpow_sub₀ (by norm_num), zpow_natCast, zpow_natCast]
  have hlow : pow2 ((nlog2 x.num.toNat : Int) - (nlog2 x.den : Int) - 1) ≤ x := by
    have : pow2 ((nlog2 x.num.toNat : Int) - (nlog2 x.den : Int) - 1) =
        (2 : ℚ) ^ nlog2 x.num.toNat / (2 : ℚ) ^ (nlog2 x.den + 1) := by
      rw [pow2_eq, show ((nlog2 x.num.toNat : Int) - (nlog2 x.den : Int) - 1) =
        ((nlog2 x.num.toNat : Int) - ((nlog2 x.den + 1 : ℕ) : Int)) by push_cast; ring,
        zpow_sub₀ (by norm_num), zpow_natCast, zpow_natCast]
    rw [this]
    conv_rhs => rw [hxeq]
    rw [div_le_div_iff₀ (by positivity) hdq]
    calc (2 : ℚ) ^ nlog2 x.num.toNat * (x.den : ℚ)
        ≤ (x.num.toNat : ℚ) * (x.den : ℚ) := by
          exact mul_le_mul_of_nonneg_right lnq (le_of_lt hdq)
      _ ≤ (x.num.toNat : ℚ) * (2 : ℚ) ^ (nlog2 x.den + 1) := by
          exact mul_le_mul_of_nonneg_left (le_of_lt udq) (Nat.cast_nonneg _)
  have hhigh : x < pow2 ((nlog2 x.num.toNat : Int) - (nlog2 x.den : Int) + 1) := by
    have : pow2 ((nlog2 x.num.toNat : Int) - (nlog2 x.den : Int) + 1) =
        (2 : ℚ) ^ (nlog2 x.num.toNat + 1) / (2 : ℚ) ^ nlog2 x.den := by
      rw [pow2_eq, show ((nlog2 x.num.toNat : Int) - (nlog2 x.den : Int) + 1) =
        (((nlog2 x.num.toNat + 1 : ℕ) : Int) - (nlog2 x.den : Int)) by push_cast; ring,
        zpow_sub₀ (by norm_num), zpow_natCast, zpow_natCast]
    rw [this]
    conv_lhs => rw [hxeq]
    rw [div_lt_div_iff₀ hdq hp2]
    calc (x.num.toNat : ℚ) * (2 : ℚ) ^ nlog2 x.den
        ≤ (x.num.toNat : ℚ) * (x.den : ℚ) := by
          exact mul_le_mul_of_nonneg_left ldq (Nat.cast_nonneg _)
      _ < (2 : ℚ) ^ (nlog2 x.num.toNat + 1) * (x.den : ℚ) := by
          exact mul_lt_mul_of_pos_right unq hdq
  unfold ilog2
  simp only
  split
  · rename_i h
    exact ⟨h, hhigh⟩
  · rename_i h
    refine ⟨hlow, ?_⟩
    rw [show ((nlog2 x.num.toNat : Int) - (nlog2 x.den : Int) - 1 + 1) =
      ((nlog2 x.num.toNat : Int) - (nlog2 x.den : Int)) by ring]
    exact not_le.mp h

theorem ilog2_mono (x y : ℚ) (hx : 0 < x) (hxy : x ≤ y) : ilog2 x ≤ ilog2 y := by
  obtain ⟨lx, _⟩ := ilog2_spec x hx
  obtain ⟨_, uy⟩ := ilog2_spec y (lt_of_lt_of_le hx hxy)
  have : pow2 (ilog2 x) < pow2 (ilog2 y + 1) := by linarith
  have := pow2_lt_imp _ _ this
  omega

theorem expo_ge (x : ℚ) : -1074 ≤ expo x := le_max_right _ _

theorem expo_low (x : ℚ) (hx : 0 < x) : expo x = -1074 ∨ pow2 (expo x + 52) ≤ x := by
  unfold expo
  by_cases h : ilog2 x - 52 ≤ -1074
  · left
    exact max_eq_right h
  · right
    rw [max_eq_left (by omega), show ilog2 x - 52 + 52 = ilog2 x by ring]
    exact (ilog2_spec x hx).1

theorem expo_high (x : ℚ) (hx : 0 < x) : x < pow2 (expo x + 53) := by
  have h1 := (ilog2_spec x hx).2
  have h2 : ilog2 x + 1 ≤ expo x + 53 := by
    have := le_max_left (ilog2 x - 52) (-1074)
    unfold expo
    omega
  exact lt_of_lt_of_le h1 (pow2_le _ _ h2)

theorem expo_mono (x y : ℚ) (hx : 0 < x) (hxy : x ≤ y) : expo x ≤ expo y := by
  have := ilog2_mono x y hx hxy
  unfold expo
  exact max_le_max (by omega) (le_refl _)

theorem rne_floor_le (s : ℚ) : ⌊s⌋ ≤ rne s := by
  unfold rne
  split_ifs <;> omega

theorem rne_le_floor_succ (s : ℚ) : rne s ≤ ⌊s⌋ + 1 := by
  unfold rne
  split_ifs <;> omega

theorem rne_intCast (k : ℤ) : rne (k : ℚ) = k := by
  unfold rne
  simp

theorem rne_le_int (s : ℚ) (k : ℤ) (h : s ≤ k) : rne s ≤ k := by
  have hf : (⌊s⌋ : ℚ) ≤ s := Int.floor_le s
  have hfk : ⌊s⌋ ≤ k := by exact_mod_cast le_trans hf h
  rcases lt_or_eq_of_le hfk with hlt | heq
  · have := rne_le_floor_succ s
    omega
  · have hs : s = (k : ℚ) := by
      apply le_antisymm h
      rw [← heq]
      exact hf
    rw [hs, rne_intCast]

theorem int_le_rne (s : ℚ) (k : ℤ) (h : (k : ℚ) ≤ s) : k ≤ rne s :=
  le_trans (Int.le_floor.mpr h) (rne_floor_le s)

theorem rne_mono (s t : ℚ) (h : s ≤ t) : rne s ≤ rne t := by
  have hft : ⌊s⌋ ≤ ⌊t⌋ := Int.floor_le_floor h
  rcases lt_or_eq_of_le hft with hlt | heq
  · have h1 := rne_le_floor_succ s
    have h2 := rne_floor_le t
    omega
  · unfold rne
    rw [heq]
    have hfrac : s - (⌊t⌋ : ℚ) ≤ t - (⌊t⌋ : ℚ) := by linarith
    split_ifs <;> first | omega | linarith

theorem rne_err (s : ℚ) : |(rne s : ℚ) - s| ≤ 1 / 2 := by
  have h1 : (⌊s⌋ : ℚ) ≤ s := Int.floor_le s
  have h2 : s < (⌊s⌋ : ℚ) + 1 := Int.lt_floor_add_one s
  unfold rne
  rw [abs_le]
  split_ifs <;> constructor <;> push_cast <;> linarith

theorem rmag_eq (a : ℚ) : rmag a = (rne (a / pow2 (expo a)) : ℚ) * pow2 (expo a) := rfl

theorem rmag_le_of_grid (a : ℚ) (k : ℤ) (h : a ≤ (k : ℚ) * pow2 (expo a)) :
    rmag a ≤ (k : ℚ) * pow2 (expo a) := by
  have hp := pow2_pos (expo a)
  have hs : a / pow2 (expo a) ≤ (k : ℚ) := by
    rw [div_le_iff₀ hp]
    exact h
  have := rne_le_int _ k hs
  rw [rmag_eq]
  exact mul_le_mul_of_nonneg_right (by exact_mod_cast this) (le_of_lt hp)

theorem grid_le_rmag (a : ℚ) (k : ℤ) (h : (k : ℚ) * pow2 (expo a) ≤ a) :
    (k : ℚ) * pow2 (expo a) ≤ rmag a := by
  have hp := pow2_pos (expo a)
  have hs : (k : ℚ) ≤ a / pow2 (expo a) := by
    rw [le_div_iff₀ hp]
    exact h
  have := int_le_rne _ k hs
  rw [rmag_eq]
  exact mul_le_mul_of_nonneg_right (by exact_mod_cast this) (le_of_lt hp)

theorem rmag_of_grid (a : ℚ) (k : ℤ) (h : a = (k : ℚ) * pow2 (expo a)) : rmag a = a :=
  le_antisymm (by
    have := rmag_le_of_grid a k (le_of_eq h)
    rw [← h] at this
    exact this) (by
    have := grid_le_rmag a k (le_of_eq h.symm)
    rw [← h] at this
    exact this)

theorem rmag_nonneg (a : ℚ) (ha : 0 ≤ a) : 0 ≤ rmag a := by
  have := grid_le_rmag a 0 (by simpa using ha)
  simpa using this

/-- A power of two with a larger exponent is an integer multiple of one with a
smaller exponent. -/
theorem pow2_grid (e1 e2 : ℤ) (h : e1 ≤ e2) :
    ∃ k : ℤ, 0 < k ∧ pow2 e2 = (k : ℚ) * pow2 e1 := by
  refine ⟨((2 ^ (e2 - e1).toNat : ℕ) : ℤ), by positivity, ?_⟩
  have hn : (((e2 - e1).toNat : ℕ) : ℤ) = e2 - e1 := Int.toNat_of_nonneg (by omega)
  have h2 : e2 = ((e2 - e1).toNat : ℤ) + e1 := by omega
  conv_lhs => rw [h2]
  rw [pow2_add, pow2_natCast]
  push_cast
  rfl

theorem rmag_mono (x y : ℚ) (hx : 0 < x) (hxy : x ≤ y) : rmag x ≤ rmag y := by
  have hy : 0 < y := lt_of_lt_of_le hx hxy
  have he := expo_mono x y hx hxy
  rcases lt_or_eq_of_le he with hlt | heq
  · -- the power of two between them lies on both grids
    obtain ⟨k1, _, hk1⟩ := pow2_grid (expo x) (expo y + 52) (by omega)
    obtain ⟨k2, _, hk2⟩ := pow2_grid (expo y) (expo y + 52) (by omega)
    have hxc : x ≤ pow2 (expo y + 52) :=
      le_trans (le_of_lt (expo_high x hx)) (pow2_le _ _ (by omega))
    have hcy : pow2 (expo y + 52) ≤ y := by
      rcases expo_low y hy with h | h
      · have := expo_ge x
        omega
      · exact h
    have h1 := rmag_le_of_grid x k1 (by rw [← hk1]; exact hxc)
    have h2 := grid_le_rmag y k2 (by rw [← hk2]; exact hcy)
    rw [← hk1] at h1
    rw [← hk2] at h2
    exact le_trans h1 h2
  · rw [rmag_eq, rmag_eq, heq]
    have hp := pow2_pos (expo y)
    have hs : x / pow2 (expo y) ≤ y / pow2 (expo y) := by
      exact div_le_div_of_nonneg_right hxy (le_of_lt hp)
    have := rne_mono _ _ hs
    exact mul_le_mul_of_nonneg_right (by exact_mod_cast this) (le_of_lt hp)

theorem rmag_id (b : ℚ) (hb : 0 < b) (hr : Representable b) : rmag b = b := by
  obtain ⟨m, e, hm, he, hbe⟩ := hr
  by_cases hge : expo b ≤ e
  · obtain ⟨k, _, hk⟩ := pow2_grid (expo b) e hge
    apply rmag_of_grid b ((m : ℤ) * k)
    rw [hbe] 
    conv_lhs => rw [hk]
    push_cast
    ring_nf
    rw [← hbe]
  · have hlt : e < expo b := by omega
    have hlow : pow2 (expo b + 52) ≤ b := by
      rcases expo_low b hb with h | h
      · omega
      · exact h
    have hup : b ≤ pow2 (expo b + 52) := by
      have h53 : (m : ℚ) ≤ pow2 53 := by
        rw [show (53 : ℤ) = ((53 : ℕ) : ℤ) by rfl, pow2_natCast]
        exact_mod_cast hm
      calc b = (m : ℚ) * pow2 e := hbe
        _ ≤ pow2 53 * pow2 e := mul_le_mul_of_nonneg_right h53 (le_of_lt (pow2_pos e))
        _ = pow2 (53 + e) := (pow2_add 53 e).symm
        _ ≤ pow2 (expo b + 52) := pow2_le _ _ (by omega)
    have heq : b = pow2 (expo b + 52) := le_antisymm hup hlow
    obtain ⟨k, _, hk⟩ := pow2_grid (expo b) (expo b + 52) (by omega)
    apply rmag_of_grid b k
    rw [← hk]
    exact heq

theorem rmag_representable (a : ℚ) (ha : 0 < a) : Representable (rmag a) := by
  have hp := pow2_pos (expo a)
  have hs0 : (0 : ℚ) ≤ a / pow2 (expo a) := div_nonneg (le_of_lt ha) (le_of_lt hp)
  have h0 : 0 ≤ rne (a / pow2 (expo a)) := int_le_rne _ 0 (by simpa using hs0)
  have hhi : a / pow2 (expo a) ≤ ((2 ^ 53 : ℕ) : ℤ) := by
    rw [div_le_iff₀ hp]
    have := expo_high a ha
    rw [show expo a + 53 = ((53 : ℕ) : ℤ) + expo a by push_cast; ring, pow2_add, pow2_natCast]
      at this
    push_cast at this ⊢
    exact le_of_lt this
  have h53 := rne_le_int _ _ hhi
  refine ⟨(rne (a / pow2 (expo a))).toNat, expo a, ?_, expo_ge a, ?_⟩
  · have : ((rne (a / pow2 (expo a))).toNat : ℤ) = rne (a / pow2 (expo a)) :=
      Int.toNat_of_nonneg h0
    omega
  · rw [rmag_eq]
    congr 1
    have : ((rne (a / pow2 (expo a))).toNat : ℤ) = rne (a / pow2 (expo a)) :=
      Int.toNat_of_nonneg h0
    exact_mod_cast this.symm

theorem rmag_err (a : ℚ) : |rmag a - a| ≤ pow2 (expo a) / 2 := by
  have hp := pow2_pos (expo a)
  have h := rne_err (a / pow2 (expo a))
  have : rmag a - a = ((rne (a / pow2 (expo a)) : ℚ) - a / pow2 (expo a)) * pow2 (expo a) := by
    rw [rmag_eq]
    field_simp
  rw [this, abs_mul, abs_of_pos hp]
  calc |(rne (a / pow2 (expo a)) : ℚ) - a / pow2 (expo a)| * pow2 (expo a)
      ≤ (1 / 2) * pow2 (expo a) := mul_le_mul_of_nonneg_right h (le_of_lt hp)
    _ = pow2 (expo a) / 2 := by ring

theorem round_zero : round 0 = fin 0 := by
  simp [round]

theorem round_of_pos (x : ℚ) (hx : 0 < x) :
    round x = if pow2 1024 ≤ rmag x then inf false else fin (rmag x) := by
  have hne : x ≠ 0 := ne_of_gt hx
  have hnn : ¬ x < 0 := not_lt.mpr (le_of_lt hx)
  simp [round, hne, hnn, abs_of_pos hx]

theorem round_of_neg (x : ℚ) (hx : x < 0) :
    round x = if pow2 1024 ≤ rmag (-x) then inf true else fin (-rmag (-x)) := by
  have hne : x ≠ 0 := ne_of_lt hx
  simp [round, hne, hx, abs_of_neg hx]

theorem round_le (x b : ℚ) (hx : 0 ≤ x) (hxb : x ≤ b) (hb : Representable b)
    (hfin : b < pow2 1024) :
    ∃ v, round x = fin v ∧ 0 ≤ v ∧ v ≤ b ∧ (0 < x → v = rmag x) := by
  rcases eq_or_lt_of_le hx with h0 | hpos
  · refine ⟨0, by rw [← h0, round_zero], le_refl _, by linarith, fun h => ?_⟩
    rw [← h0] at h
    exact absurd h (lt_irrefl _)
  · have hbpos : 0 < b := lt_of_lt_of_le hpos hxb
    have hle : rmag x ≤ b := by
      have := rmag_mono x b hpos hxb
      rwa [rmag_id b hbpos hb] at this
    have hnot : ¬ pow2 1024 ≤ rmag x := not_le.mpr (lt_of_le_of_lt hle hfin)
    refine ⟨rmag x, ?_, rmag_nonneg x hx, hle, fun _ => rfl⟩
    rw [round_of_pos x hpos, if_neg hnot]

theorem le_round (x b v : ℚ) (hb0 : 0 < b) (hbx : b ≤ x) (hb : Representable b)
    (hv : round x = fin v) : b ≤ v := by
  have hpos : 0 < x := lt_of_lt_of_le hb0 hbx
  rw [round_of_pos x hpos] at hv
  split at hv
  · exact absurd hv (by simp)
  · have hvx : v = rmag x := (Dbl.fin.inj hv).symm
    have := rmag_mono b x hb0 hbx
    rw [rmag_id b hb0 hb] at this
    rw [hvx]
    exact this

theorem round_mono_fin (x y vy : ℚ) (hx : 0 ≤ x) (hxy : x ≤ y) (hy : round y = fin vy) :
    ∃ vx, round x = fin vx ∧ 0 ≤ vx ∧ vx ≤ vy := by
  rcases eq_or_lt_of_le hx with h0 | hpos
  · rcases eq_or_lt_of_le (le_trans hx hxy) with hy0 | hypos
    · refine ⟨0, by rw [← h0, round_zero], le_refl _, ?_⟩
      rw [← hy0, round_zero] at hy
      exact le_of_eq (Dbl.fin.inj hy)
    · refine ⟨0, by rw [← h0, round_zero], le_refl _, ?_⟩
      rw [round_of_pos y hypos] at hy
      split at hy
      · exact absurd hy (by simp)
      · rw [← Dbl.fin.inj hy]
        exact rmag_nonneg y (le_of_lt hypos)
  · have hypos : 0 < y := lt_of_lt_of_le hpos hxy
    rw [round_of_pos y hypos] at hy
    split at hy
    · exact absurd hy (by simp)
    · rename_i hny
      have hvy : vy = rmag y := (Dbl.fin.inj hy).symm
      have hm := rmag_mono x y hpos hxy
      have hnx : ¬ pow2 1024 ≤ rmag x := fun h => hny (le_trans h hm)
      refine ⟨rmag x, ?_, rmag_nonneg x hx, by rw [hvy]; exact hm⟩
      rw [round_of_pos x hpos, if_neg hnx]

theorem round_round (x y : ℚ) (h : round x = fin y) : round y = fin y := by
  rcases lt_trichotomy x 0 with hneg | h0 | hpos
  · rw [round_of_neg x hneg] at h
    split at h
    · exact absurd h (by simp)
    · rename_i hn
      have hy : y = -rmag (-x) := (Dbl.fin.inj h).symm
      have hnx : 0 < -x := by linarith
      rcases eq_or_lt_of_le (rmag_nonneg (-x) (le_of_lt hnx)) with hz | hp
      · rw [hy, ← hz]
        simp [round_zero]
      · have hyneg : y < 0 := by rw [hy]; linarith
        have hid := rmag_id (rmag (-x)) hp (rmag_representable (-x) hnx)
        rw [round_of_neg y hyneg]
        have : -y = rmag (-x) := by rw [hy]; ring
        rw [this, hid, if_neg hn, ← this]
        simp
  · rw [h0, round_zero] at h
    rw [← Dbl.fin.inj h, round_zero]
  · rw [round_of_pos x hpos] at h
    split at h
    · exact absurd h (by simp)
    · rename_i hn
      have hy : y = rmag x := (Dbl.fin.inj h).symm
      rcases eq_or_lt_of_le (rmag_nonneg x (le_of_lt hpos)) with hz | hp
      · rw [hy, ← hz, round_zero]
      · have hid := rmag_id (rmag x) hp (rmag_representable x hpos)
        rw [hy, round_of_pos (rmag x) hp, hid, if_neg hn]

theorem expo_le_of_le_one (x : ℚ) (hx : 0 < x) (h1 : x ≤ 1) : expo x ≤ -52 := by
  rcases expo_low x hx with h | h
  · omega
  · by_contra hc
    have : pow2 1 ≤ pow2 (expo x + 52) := pow2_le _ _ (by omega)
    have h2 : pow2 1 = 2 := by
      rw [pow2_eq]
      norm_num
    linarith

theorem round_err_unit (x v : ℚ) (hx0 : 0 ≤ x) (hx1 : x ≤ 1) (h : round x = fin v) :
    |v - x| ≤ pow2 (-53) := by
  rcases eq_or_lt_of_le hx0 with h0 | hpos
  · rw [← h0, round_zero] at h
    rw [← Dbl.fin.inj h, ← h0]
    simp [le_of_lt (pow2_pos _)]
  · rw [round_of_pos x hpos] at h
    split at h
    · exact absurd h (by simp)
    · rw [← Dbl.fin.inj h]
      have he := expo_le_of_le_one x hpos hx1
      have h1 := rmag_err x
      have h2 : pow2 (expo x) / 2 ≤ pow2 (-53) := by
        have h3 : pow2 (expo x) ≤ pow2 (-52) := pow2_le _ _ he
        have h4 : pow2 (-52) = 2 * pow2 (-53) := by
          have h5 : pow2 1 = 2 := by
            rw [pow2_eq]
            norm_num
          rw [show (-52 : ℤ) = 1 + -53 by norm_num, pow2_add, h5]
        linarith
      linarith

theorem representable_natCast (n : ℕ) (h : n ≤ 2 ^ 53) : Representable (n : ℚ) :=
  ⟨n, 0, h, by norm_num, by simp [pow2]⟩

theorem pow2_1024_gt (n : ℕ) (h : n ≤ 2 ^ 64) : (n : ℚ) < pow2 1024 := by
  have h1 : (n : ℚ) ≤ ((2 ^ 64 : ℕ) : ℚ) := by exact_mod_cast h
  have h2 : ((2 ^ 64 : ℕ) : ℚ) = pow2 64 := by
    rw [show (64 : ℤ) = ((64 : ℕ) : ℤ) by rfl, pow2_natCast]
  have h3 : pow2 64 < pow2 1024 := pow2_lt _ _ (by norm_num)
  linarith

theorem round_le_pow2_neg53_two : pow2 (-52) = 2 * pow2 (-53) := by
  have h5 : pow2 1 = 2 := by
    rw [pow2_eq]
    norm_num
  rw [show (-52 : ℤ) = 1 + -53 by norm_num, pow2_add, h5]

theorem representable_one : Representable 1 :=
  ⟨1, 0, by norm_num, by norm_num, by simp [pow2]⟩

theorem representable_two_pow_64 : Representable (pow2 64) :=
  ⟨1, 64, by norm_num, by norm_num, by simp⟩

theorem one_lt_pow2_1024 : (1 : ℚ) < pow2 1024 := by
  have h0 : pow2 0 = 1 := by simp [pow2]
  rw [← h0]
  exact pow2_lt _ _ (by norm_num)

theorem round_natCast_exact (n : ℕ) (h : n ≤ 2 ^ 53) : round (n : ℚ) = fin (n : ℚ) := by
  have hr := representable_natCast n h
  have hfin : (n : ℚ) < pow2 1024 := pow2_1024_gt n (le_trans h (by norm_num))
  obtain ⟨v, hv, _, hle, hrm⟩ := round_le (n : ℚ) (n : ℚ) (Nat.cast_nonneg n) (le_refl _) hr hfin
  rcases Nat.eq_zero_or_pos n with h0 | hpos
  · subst h0
    simp [round_zero]
  · have hq : (0 : ℚ) < (n : ℚ) := by exact_mod_cast hpos
    rw [hv, hrm hq, rmag_id _ hq hr]

/-- The conversion of a 64-bit unsigned integer: finite, monotone, at least 1 on
a positive integer. -/
theorem ofNat_spec (a t : ℕ) (hat : a ≤ t) (ht : t < 2 ^ 64) :
    ∃ A T : ℚ, ofNat a = fin A ∧ ofNat t = fin T ∧ 0 ≤ A ∧ A ≤ T ∧ (0 < t → 1 ≤ T) ∧
      (t ≤ 2 ^ 53 → A = a ∧ T = t) := by
  have htq : (t : ℚ) ≤ pow2 64 := by
    rw [show (64 : ℤ) = ((64 : ℕ) : ℤ) by rfl, pow2_natCast]
    exact_mod_cast le_of_lt ht
  have hfin : pow2 64 < pow2 1024 := pow2_lt _ _ (by norm_num)
  obtain ⟨T, hT, hT0, _, _⟩ :=
    round_le (t : ℚ) (pow2 64) (Nat.cast_nonneg t) htq representable_two_pow_64 hfin
  obtain ⟨A, hA, hA0, hAT⟩ :=
    round_mono_fin (a : ℚ) (t : ℚ) T (Nat.cast_nonneg a) (by exact_mod_cast hat) hT
  refine ⟨A, T, hA, hT, hA0, hAT, fun hpos => ?_, fun h53 => ?_⟩
  · exact le_round (t : ℚ) 1 T (by norm_num) (by exact_mod_cast hpos) representable_one hT
  · have e1 := round_natCast_exact t h53
    have e2 := round_natCast_exact a (le_trans hat h53)
    rw [e1] at hT
    rw [e2] at hA
    exact ⟨(Dbl.fin.inj hA).symm, (Dbl.fin.inj hT).symm⟩

/-- The used fraction `1.0 - (double)a / t` of the source for 64-bit readings
with `0 < t` and `a <= t`: a finite number in `[0,1]`, within `2 ^ -52` of the
real `1 - a/t` when the conversions are exact. -/
theorem used_fraction_spec (a t : ℕ) (ht : 0 < t) (hat : a ≤ t) (ht64 : t < 2 ^ 64) :
    ∃ f : ℚ, sub (fin 1) (div (ofNat a) (ofNat t)) = fin f ∧ 0 ≤ f ∧ f ≤ 1 ∧
      (t ≤ 2 ^ 53 → |f - (1 - (a : ℚ) / (t : ℚ))| ≤ pow2 (-52)) := by
  obtain ⟨A, T, hA, hT, hA0, hAT, hT1, hex⟩ := ofNat_spec a t hat ht64
  have hT1 := hT1 ht
  have hTpos : 0 < T := by linarith
  have hTne : T ≠ 0 := ne_of_gt hTpos
  have hq0 : 0 ≤ A / T := div_nonneg hA0 (le_of_lt hTpos)
  have hq1 : A / T ≤ 1 := (div_le_one hTpos).mpr hAT
  obtain ⟨q, hq, hq0v, hq1v, _⟩ :=
    round_le (A / T) 1 hq0 hq1 representable_one one_lt_pow2_1024
  have hw0 : 0 ≤ 1 + -q := by linarith
  have hw1 : 1 + -q ≤ 1 := by linarith
  obtain ⟨f, hf, hf0, hf1, _⟩ :=
    round_le (1 + -q) 1 hw0 hw1 representable_one one_lt_pow2_1024
  refine ⟨f, ?_, hf0, hf1, fun h53 => ?_⟩
  · rw [hA, hT]
    simp only [div, hTne, if_false, hq, sub, neg, add, hf]
  · obtain ⟨eA, eT⟩ := hex h53
    have e1 := round_err_unit (A / T) q hq0 hq1 hq
    have e2 := round_err_unit (1 + -q) f hw0 hw1 hf
    rw [eA, eT] at e1
    rw [round_le_pow2_neg53_two]
    have habs : |f - (1 - (a : ℚ) / (t : ℚ))| ≤
        |f - (1 + -q)| + |q - (a : ℚ) / (t : ℚ)| := by
      have : f - (1 - (a : ℚ) / (t : ℚ)) = (f - (1 + -q)) + -(q - (a : ℚ) / (t : ℚ)) := by ring
      rw [this]
      calc |(f - (1 + -q)) + -(q - (a : ℚ) / (t : ℚ))|
          ≤ |f - (1 + -q)| + |-(q - (a : ℚ) / (t : ℚ))| := abs_add _ _
        _ = |f - (1 + -q)| + |q - (a : ℚ) / (t : ℚ)| := by rw [abs_neg]
    linarith

theorem round_seven_tenths : round (7 / 10) = fin (6305039478318694 / 9007199254740992) := by
  decide!

theorem round_three_tenths : round (3 / 10) = fin (5404319552844595 / 18014398509481984) := by
  decide!

theorem representable_seven_tenths :
    Representable (6305039478318694 / 9007199254740992) :=
  ⟨6305039478318694, -53, by norm_num, by norm_num, by
    rw [pow2_eq]
    norm_num⟩

theorem representable_three_tenths :
    Representable (5404319552844595 / 18014398509481984) :=
  ⟨5404319552844595, -54, by norm_num, by norm_num, by
    rw [pow2_eq]
    norm_num⟩

theorem representable_hundred : Representable 100 :=
  ⟨100, 0, by norm_num, by norm_num, by simp [pow2]⟩

end Dbl

/-! ## Values of the rounding

Checks of `Dbl.round` against the binary64 values of the C implementation. -/

/-- The quotient `1.0 / 3` is 0x1.5555555555555p-2. -/
theorem div_one_three :
    Dbl.div (Dbl.ofNat 1) (Dbl.ofNat 3) = Dbl.fin (6004799503160661 / 18014398509481984) := by
  decide!

/-- The literal `0.1` is 0x1.999999999999ap-4. -/
theorem round_one_tenth :
    Dbl.round (1 / 10) = Dbl.fin (7205759403792794 / 72057594037927936) := by
  decide!

/-- With 5 units of swap of which 4 are free, `1.0 - 4.0/5` is
0x1.9999999999998p-3, a little below 0.2, and `(int)(swap_used_percent * 100)`
is 19. -/
theorem swap_percent_nineteen :
    swap_used_percent ⟨5, 4⟩ = Dbl.fin (7205759403792792 / 36028797018963968) ∧
      Dbl.toInt (Dbl.mul (swap_used_percent ⟨5, 4⟩) (Dbl.fin 100)) = 19 := by
  decide!

/-- The integer `2 ^ 53 + 1` is not a binary64 number: its conversion is
`2 ^ 53` (a tie, resolved to the even significand). -/
theorem ofNat_two_pow_53_succ :
    Dbl.ofNat (2 ^ 53 + 1) = Dbl.fin 9007199254740992 ∧
      Dbl.ofNat (2 ^ 53 + 3) = Dbl.fin 9007199254740996 := by
  decide!

/-- Overflow: `2 ^ 1024` and the numbers that round up to it are infinite; the
largest binary64 number is kept. -/
theorem round_overflow :
    Dbl.round (Dbl.pow2 1024) = Dbl.inf false ∧
      Dbl.round (-(Dbl.pow2 1024 - Dbl.pow2 970)) = Dbl.inf true ∧
      Dbl.round (Dbl.pow2 1024 - Dbl.pow2 971) =
        Dbl.fin (Dbl.pow2 1024 - Dbl.pow2 971) := by
  decide!

/-- Gradual underflow: below `2 ^ -1022` the grid has the step `2 ^ -1074`;
half a step is a tie and goes to the even neighbour. -/
theorem round_subnormal :
    Dbl.round (Dbl.pow2 (-1075)) = Dbl.fin 0 ∧
      Dbl.round (3 * Dbl.pow2 (-1075)) = Dbl.fin (Dbl.pow2 (-1073)) ∧
      Dbl.round (Dbl.pow2 (-1074)) = Dbl.fin (Dbl.pow2 (-1074)) := by
  decide!

/-! ## Lemmas on the analytics arithmetic -/

theorem pow2_neg52 : Dbl.pow2 (-52) = 1 / 2 ^ 52 := by
  rw [Dbl.pow2_eq]
  norm_num

theorem pow2_neg53 : Dbl.pow2 (-53) = 1 / 2 ^ 53 := by
  rw [Dbl.pow2_eq]
  norm_num

theorem swap_used_percent_spec (s : SysInfo) (hsw : s.freeswap ≤ s.totalswap)
    (h64 : s.totalswap < 2 ^ 64) :
    ∃ u : ℚ, swap_used_percent s = Dbl.fin u ∧ 0 ≤ u ∧ u ≤ 1 ∧
      (s.totalswap ≤ 2 ^ 53 → |u - swap_used_fraction s| ≤ 1 / 2 ^ 52) := by
  by_cases h0 : s.totalswap = 0
  · refine ⟨0, by simp [swap_used_percent, h0], le_refl _, by norm_num, fun _ => ?_⟩
    simp [swap_used_fraction, h0]
  · have hpos : 0 < s.totalswap := Nat.pos_of_ne_zero h0
    obtain ⟨u, hu, hu0, hu1, herr⟩ := Dbl.used_fraction_spec s.freeswap s.totalswap hpos hsw h64
    refine ⟨u, ?_, hu0, hu1, fun h53 => ?_⟩
    · simp only [swap_used_percent, h0, ne_eq, not_false_eq_true, if_true]
      exact hu
    · have := herr h53
      rw [pow2_neg52] at this
      simpa [swap_used_fraction, hpos] using this

theorem toInt_percent (q : ℚ) (h0 : 0 ≤ q) (h1 : q ≤ 100) :
    0 ≤ Dbl.toInt (Dbl.fin q) ∧ Dbl.toInt (Dbl.fin q) ≤ 100 := by
  have hnum : 0 ≤ q.num := Rat.num_nonneg.mpr h0
  have hden : (0 : Int) ≤ (q.den : Int) := Int.natCast_nonneg _
  have hfl : Int.tdiv q.num (q.den : Int) = ⌊q⌋ := by
    rw [Int.tdiv_eq_ediv hnum hden, Rat.floor_def]
  have hlo : 0 ≤ ⌊q⌋ := Int.floor_nonneg.mpr h0
  have hhi : ⌊q⌋ ≤ 100 := by
    have : ⌊q⌋ ≤ ⌊(100 : ℚ)⌋ := Int.floor_le_floor h1
    simpa using this
  simp only [Dbl.toInt, hfl]
  split <;> omega

theorem percent_spec (u : ℚ) (hu0 : 0 ≤ u) (hu1 : u ≤ 1) :
    0 ≤ Dbl.toInt (Dbl.mul (Dbl.fin u) (Dbl.fin 100)) ∧
      Dbl.toInt (Dbl.mul (Dbl.fin u) (Dbl.fin 100)) ≤ 100 := by
  have h100 : (100 : ℚ) < Dbl.pow2 1024 := by
    have := Dbl.pow2_1024_gt 100 (by norm_num)
    simpa using this
  obtain ⟨v, hv, hv0, hv1, _⟩ := Dbl.round_le (u * 100) 100 (by positivity) (by linarith)
    Dbl.representable_hundred h100
  simp only [Dbl.mul, hv]
  exact toInt_percent v hv0 hv1

theorem prod_err (f F c C ε δ : ℚ) (hf : |f - F| ≤ ε) (hc : |c - C| ≤ δ)
    (hc0 : 0 ≤ c) (hc1 : c ≤ 1) (hF0 : 0 ≤ F) (hF1 : F ≤ 1) :
    |f * c - C * F| ≤ ε + δ := by
  have h1 : f * c - C * F = (f - F) * c + F * (c - C) := by ring
  have h2 : |(f - F) * c| ≤ ε := by
    rw [abs_mul, abs_of_nonneg hc0]
    calc |f - F| * c ≤ |f - F| * 1 := mul_le_mul_of_nonneg_left hc1 (abs_nonneg _)
      _ = |f - F| := mul_one _
      _ ≤ ε := hf
  have h3 : |F * (c - C)| ≤ δ := by
    rw [abs_mul, abs_of_nonneg hF0]
    calc F * |c - C| ≤ 1 * |c - C| := mul_le_mul_of_nonneg_right hF1 (abs_nonneg _)
      _ = |c - C| := one_mul _
      _ ≤ δ := hc
  rw [h1]
  calc |(f - F) * c + F * (c - C)| ≤ |(f - F) * c| + |F * (c - C)| := abs_add _ _
    _ ≤ ε + δ := add_le_add h2 h3

/-- One term `x * c` of the blend for a fraction `f` in `[0,1]` and a weight `c`
that is a double in `[0,1]`: a double between 0 and `c`, within
`eps + 2 ^ -52` of `C * F` when `f` is within `eps` of `F` and `c` within
`2 ^ -53` of `C`. -/
theorem term_spec (f c : ℚ) (hf0 : 0 ≤ f) (hf1 : f ≤ 1) (hc0 : 0 ≤ c) (hc1 : c ≤ 1)
    (hrep : Dbl.Representable c) :
    ∃ p : ℚ, Dbl.mul (Dbl.fin f) (Dbl.fin c) = Dbl.fin p ∧ 0 ≤ p ∧ p ≤ c ∧
      ∀ F C ε : ℚ, 0 ≤ F → F ≤ 1 → |f - F| ≤ ε → |c - C| ≤ 1 / 2 ^ 53 →
        |p - C * F| ≤ ε + 1 / 2 ^ 52 := by
  have hfin : c < Dbl.pow2 1024 := lt_of_le_of_lt hc1 Dbl.one_lt_pow2_1024
  have hx0 : 0 ≤ f * c := mul_nonneg hf0 hc0
  have hxc : f * c ≤ c := by
    calc f * c ≤ 1 * c := mul_le_mul_of_nonneg_right hf1 hc0
      _ = c := one_mul c
  obtain ⟨p, hp, hp0, hpc, _⟩ := Dbl.round_le (f * c) c hx0 hxc hrep hfin
  refine ⟨p, by simp only [Dbl.mul, hp], hp0, hpc, fun F C ε hF0 hF1 hfF hcC => ?_⟩
  have e1 := Dbl.round_err_unit (f * c) p hx0 (le_trans hxc hc1) hp
  rw [pow2_neg53] at e1
  have e2 := prod_err f F c C ε (1 / 2 ^ 53) hfF hcC hc0 hc1 hF0 hF1
  have h3 : p - C * F = (p - f * c) + (f * c - C * F) := by ring
  rw [h3]
  calc |(p - f * c) + (f * c - C * F)| ≤ |p - f * c| + |f * c - C * F| := abs_add _ _
    _ ≤ 1 / 2 ^ 53 + (ε + 1 / 2 ^ 53) := add_le_add e1 e2
    _ = ε + 1 / 2 ^ 52 := by ring

theorem seven_tenths_err :
    |(6305039478318694 / 9007199254740992 : ℚ) - 7 / 10| ≤ 1 / 2 ^ 53 := by
  rw [abs_le]
  constructor <;> norm_num

theorem three_tenths_err :
    |(5404319552844595 / 18014398509481984 : ℚ) - 3 / 10| ≤ 1 / 2 ^ 53 := by
  rw [abs_le]
  constructor <;> norm_num

/-- The weighted term `x * 0.7` of the source. -/
theorem scaled_spec (f : ℚ) (hf0 : 0 ≤ f) (hf1 : f ≤ 1) :
    ∃ p : ℚ, Dbl.mul (Dbl.fin f) (Dbl.round (7 / 10)) = Dbl.fin p ∧ 0 ≤ p ∧ p ≤ 1 ∧
      ∀ F : ℚ, 0 ≤ F → F ≤ 1 → |f - F| ≤ 1 / 2 ^ 52 → |p - 7 / 10 * F| ≤ 1 / 2 ^ 51 := by
  obtain ⟨p, hp, hp0, hpc, herr⟩ := term_spec f (6305039478318694 / 9007199254740992) hf0 hf1
    (by norm_num) (by norm_num) Dbl.representable_seven_tenths
  refine ⟨p, by rw [Dbl.round_seven_tenths]; exact hp, hp0, le_trans hpc (by norm_num),
    fun F hF0 hF1 hfF => ?_⟩
  have := herr F (7 / 10) (1 / 2 ^ 52) hF0 hF1 hfF seven_tenths_err
  calc |p - 7 / 10 * F| ≤ 1 / 2 ^ 52 + 1 / 2 ^ 52 := this
    _ = 1 / 2 ^ 51 := by norm_num

/-- The blend `(x * 0.7) + (y * 0.3)` of the source for fractions in `[0,1]`. -/
theorem blend_spec (f u : ℚ) (hf0 : 0 ≤ f) (hf1 : f ≤ 1) (hu0 : 0 ≤ u) (hu1 : u ≤ 1) :
    ∃ p : ℚ,
      Dbl.add (Dbl.mul (Dbl.fin f) (Dbl.round (7 / 10)))
        (Dbl.mul (Dbl.fin u) (Dbl.round (3 / 10))) = Dbl.fin p ∧ 0 ≤ p ∧ p ≤ 1 ∧
      ∀ F U : ℚ, 0 ≤ F → F ≤ 1 → 0 ≤ U → U ≤ 1 → |f - F| ≤ 1 / 2 ^ 52 →
        |u - U| ≤ 1 / 2 ^ 52 → |p - (7 / 10 * F + 3 / 10 * U)| ≤ 1 / 2 ^ 49 := by
  obtain ⟨p1, hp1, hp10, hp1c, herr1⟩ := term_spec f (6305039478318694 / 9007199254740992)
    hf0 hf1 (by norm_num) (by norm_num) Dbl.representable_seven_tenths
  obtain ⟨p2, hp2, hp20, hp2c, herr2⟩ := term_spec u (5404319552844595 / 18014398509481984)
    hu0 hu1 (by norm_num) (by norm_num) Dbl.representable_three_tenths
  have hs0 : 0 ≤ p1 + p2 := add_nonneg hp10 hp20
  have hs1 : p1 + p2 ≤ 1 := by
    have : (6305039478318694 / 9007199254740992 : ℚ) +
        5404319552844595 / 18014398509481984 ≤ 1 := by norm_num
    linarith
  obtain ⟨p, hp, hp0, hp1', _⟩ :=
    Dbl.round_le (p1 + p2) 1 hs0 hs1 Dbl.representable_one Dbl.one_lt_pow2_1024
  refine ⟨p, ?_, hp0, hp1', fun F U hF0 hF1 hU0 hU1 hfF huU => ?_⟩
  · rw [Dbl.round_seven_tenths, Dbl.round_three_tenths, hp1, hp2]
    simp only [Dbl.add, hp]
  · have e1 := herr1 F (7 / 10) (1 / 2 ^ 52) hF0 hF1 hfF seven_tenths_err
    have e2 := herr2 U (3 / 10) (1 / 2 ^ 52) hU0 hU1 huU three_tenths_err
    have e3 := Dbl.round_err_unit (p1 + p2) p hs0 hs1 hp
    rw [pow2_neg53] at e3
    have h : p - (7 / 10 * F + 3 / 10 * U) =
        (p - (p1 + p2)) + ((p1 - 7 / 10 * F) + (p2 - 3 / 10 * U)) := by ring
    rw [h]
    calc |(p - (p1 + p2)) + ((p1 - 7 / 10 * F) + (p2 - 3 / 10 * U))|
        ≤ |p - (p1 + p2)| + |(p1 - 7 / 10 * F) + (p2 - 3 / 10 * U)| := abs_add _ _
      _ ≤ |p - (p1 + p2)| + (|p1 - 7 / 10 * F| + |p2 - 3 / 10 * U|) :=
          add_le_add (le_refl _) (abs_add _ _)
      _ ≤ 1 / 2 ^ 53 + ((1 / 2 ^ 52 + 1 / 2 ^ 52) + (1 / 2 ^ 52 + 1 / 2 ^ 52)) :=
          add_le_add e3 (add_le_add e1 e2)
      _ ≤ 1 / 2 ^ 49 := by norm_num

theorem report_fault_rate_finite (a : MemoryAnalytics) :
    Dbl.isfinite (report_of a).fault_rate = true := by
  unfold report_of
  cases h : a.fault_rate <;> simp [Dbl.isfinite]

theorem wmul_wsub_of_le (t a : Nat) (ha : a ≤ t) :
    wmul (wsub t a) 1024 = ((t - a) * 1024) % SIZE_MOD := by
  unfold wmul wsub SIZE_MOD
  norm_num
  omega

theorem update_memory_fields (a : MemoryAnalytics) (m : MemInfo) (si : Option SysInfo) :
    (update_memory a (some m) si).fragmentation_index =
        Dbl.sub (Dbl.fin 1) (Dbl.div (Dbl.ofNat m.memAvailable) (Dbl.ofNat m.memTotal)) ∧
      (update_memory a (some m) si).memory_usage = wmul (wsub m.memTotal m.memAvailable) 1024 ∧
      (update_memory a (some m) si).total_memory = wmul m.memTotal 1024 ∧
      (update_memory a (some m) si).free_memory = wmul m.memAvailable 1024 ∧
      (update_memory a (some m) si).peak_usage = a.peak_usage := by
  cases si <;> simp [update_memory]

theorem analyze_fields (initialized : Bool) (g : Globals) (r : Readings) (m : MemInfo)
    (hm : r.meminfo = some m) :
    (analyze_memory_advanced initialized g r).1.fragmentation_index = mem_used_double m ∧
      (analyze_memory_advanced initialized g r).1.memory_usage =
        wmul (wsub m.memTotal m.memAvailable) 1024 ∧
      (analyze_memory_advanced initialized g r).1.total_memory = wmul m.memTotal 1024 ∧
      (analyze_memory_advanced initialized g r).1.free_memory = wmul m.memAvailable 1024 := by
  simp only [analyze_memory_advanced, update_analytics, report_of, hm, mem_used_double]
  obtain ⟨e1, e2, e3, e4, _⟩ := update_memory_fields
    (update_faults (if initialized = false then init_analytics g r.init_time r.init_usage else g)
      (time_diff r.current_time
        (if initialized = false then init_analytics g r.init_time r.init_usage
          else g).g_last_check_time) r.usage).g_analytics m r.si
  exact ⟨e1, e2, e3, e4⟩

theorem analyze_pressure (initialized : Bool) (g : Globals) (r : Readings) (m : MemInfo)
    (s : SysInfo) (hm : r.meminfo = some m) (hs : r.si = some s) :
    (analyze_memory_advanced initialized g r).1.pressure_score =
        Dbl.add (Dbl.mul (mem_used_double m) (Dbl.round (7 / 10)))
          (Dbl.mul (swap_used_percent s) (Dbl.round (3 / 10))) ∧
      (analyze_memory_advanced initialized g r).1.swap_usage_percent =
        Dbl.toInt (Dbl.mul (swap_used_percent s) (Dbl.fin 100)) ∧
      (analyze_memory_advanced initialized g r).2.g_analytics.pressure_score =
        (analyze_memory_advanced initialized g r).1.pressure_score := by
  simp [analyze_memory_advanced, update_analytics, update_memory, report_of, hm, hs,
    mem_used_double]

/-- C9 as stated fails: with 1000 kB in total and 2000 kB available the refresh
reports a fragmentation index of -1 and a pressure score of
-0x1.6666666666666p-1 (the double next to -0.7), both outside `[0,1]`. -/
theorem report_out_of_range :
    (analyze_memory_advanced false Globals.init skewedReadings).1.fragmentation_index =
        Dbl.fin (-1) ∧
      (analyze_memory_advanced false Globals.init skewedReadings).1.pressure_score =
        Dbl.fin (-6305039478318694 / 9007199254740992) ∧
      ¬ Dbl.inRange 0 1
        (analyze_memory_advanced false Globals.init skewedReadings).1.fragmentation_index ∧
      ¬ Dbl.inRange 0 1
        (analyze_memory_advanced false Globals.init skewedReadings).1.pressure_score := by
  decide!

/-- C9, amended. For every refresh (`update_analytics` followed by the report
assembly) whose meminfo reading has `total > 0` and `available <= total` and
whose swap reading has `free_swap <= total_swap` (64-bit values, as `unsigned
long` holds them), whatever the earlier state, the fault counters and the clock
readings, the report has `fragmentation_index` and `pressure_score` in `[0,1]`,
`swap_usage_percent` in `[0,100]`, and every floating-point field finite. -/
theorem report_in_range (initialized : Bool) (g : Globals) (r : Readings) (m : MemInfo)
    (s : SysInfo) (hm : r.meminfo = some m) (hs : r.si = some s)
    (ht : 0 < m.memTotal) (ha : m.memAvailable ≤ m.memTotal)
    (hsw : s.freeswap ≤ s.totalswap) (ht64 : m.memTotal < SIZE_MOD)
    (hs64 : s.totalswap < SIZE_MOD) :
    Dbl.inRange 0 1 (analyze_memory_advanced initialized g r).1.fragmentation_index ∧
      Dbl.inRange 0 1 (analyze_memory_advanced initialized g r).1.pressure_score ∧
      0 ≤ (analyze_memory_advanced initialized g r).1.swap_usage_percent ∧
      (analyze_memory_advanced initialized g r).1.swap_usage_percent ≤ 100 ∧
      Report.finite (analyze_memory_advanced initialized g r).1 := by
  obtain ⟨f, hf, hf0, hf1, _⟩ := Dbl.used_fraction_spec m.memAvailable m.memTotal ht ha ht64
  obtain ⟨u, hu, hu0, hu1, _⟩ := swap_used_percent_spec s hsw hs64
  obtain ⟨p, hp, hp0, hp1, _⟩ := blend_spec f u hf0 hf1 hu0 hu1
  obtain ⟨hq0, hq1⟩ := percent_spec u hu0 hu1
  obtain ⟨e1, _, _, _⟩ := analyze_fields initialized g r m hm
  obtain ⟨e2, e3, _⟩ := analyze_pressure initialized g r m s hm hs
  have hfin : Dbl.isfinite (analyze_memory_advanced initialized g r).1.fault_rate = true :=
    report_fault_rate_finite _
  have hmd : mem_used_double m = Dbl.fin f := hf
  rw [hmd] at e1 e2
  rw [hu] at e2 e3
  rw [hp] at e2
  simp only [Report.finite, e1, e2, e3, hfin]
  exact ⟨⟨hf0, hf1⟩, ⟨hp0, hp1⟩, hq0, hq1, rfl, trivial, rfl⟩

/-- An instance of the amended C9 on the sample reading: fragmentation 0.75,
half of the swap in use. -/
theorem report_in_range_witness :
    (sampleReadings.meminfo = some sampleMemInfo ∧ sampleReadings.si = some sampleSysInfo ∧
      0 < sampleMemInfo.memTotal ∧ sampleMemInfo.memAvailable ≤ sampleMemInfo.memTotal ∧
      sampleSysInfo.freeswap ≤ sampleSysInfo.totalswap ∧ sampleMemInfo.memTotal < SIZE_MOD ∧
      sampleSysInfo.totalswap < SIZE_MOD) ∧
    Dbl.inRange 0 1
      (analyze_memory_advanced false Globals.init sampleReadings).1.fragmentation_index ∧
    Dbl.inRange 0 1
      (analyze_memory_advanced false Globals.init sampleReadings).1.pressure_score ∧
    0 ≤ (analyze_memory_advanced false Globals.init sampleReadings).1.swap_usage_percent ∧
    (analyze_memory_advanced false Globals.init sampleReadings).1.swap_usage_percent ≤ 100 ∧
    Report.finite (analyze_memory_advanced false Globals.init sampleReadings).1 :=
  ⟨⟨rfl, rfl, by decide, by decide, by decide, by decide, by decide⟩,
    report_in_range false Globals.init sampleReadings sampleMemInfo sampleSysInfo rfl rfl
      (by decide) (by decide) (by decide) (by decide) (by decide)⟩

/-- C10 as stated fails: with 3 kB in total and 1 kB available the refresh
reports the double 0x1.5555555555556p-1, which is not `1 - 1/3`. -/
theorem fragmentation_is_rounded :
    (analyze_memory_advanced false Globals.init thirdReadings).1.fragmentation_index =
        Dbl.fin (6004799503160662 / 9007199254740992) ∧
      (analyze_memory_advanced false Globals.init thirdReadings).1.fragmentation_index ≠
        Dbl.fin (1 - (thirdMemInfo.memAvailable : ℚ) / (thirdMemInfo.memTotal : ℚ)) := by
  decide!

/-- C10, amended. For every meminfo reading with `total > 0` and
`available <= total` (64-bit values), a refresh reports as `fragmentation_index`
the double the code computes for `1 - available/total`: a number in `[0,1]`,
within `2 ^ -52` of the real `1 - available/total` when `total <= 2 ^ 53` (the
conversions to double are then exact). It reports, in bytes (the kB value
times 1024, in unsigned 64-bit arithmetic), `memory_usage = total - available`
next to `total_memory = total`; when the byte count of the total fits in 64
bits these are exactly `(total - available) * 1024` and `total * 1024`. -/
theorem refresh_usage_and_fragmentation (initialized : Bool) (g : Globals) (r : Readings)
    (m : MemInfo) (hm : r.meminfo = some m) (ht : 0 < m.memTotal)
    (ha : m.memAvailable ≤ m.memTotal) (ht64 : m.memTotal < SIZE_MOD) :
    Dbl.inRange 0 1 (analyze_memory_advanced initialized g r).1.fragmentation_index ∧
      (m.memTotal ≤ 2 ^ 53 →
        Dbl.near (1 - (m.memAvailable : ℚ) / (m.memTotal : ℚ)) (1 / 2 ^ 52)
          (analyze_memory_advanced initialized g r).1.fragmentation_index) ∧
      (analyze_memory_advanced initialized g r).1.memory_usage =
        ((m.memTotal - m.memAvailable) * 1024) % SIZE_MOD ∧
      (analyze_memory_advanced initialized g r).1.total_memory =
        (m.memTotal * 1024) % SIZE_MOD ∧
      (m.memTotal * 1024 < SIZE_MOD →
        (analyze_memory_advanced initialized g r).1.memory_usage =
            (m.memTotal - m.memAvailable) * 1024 ∧
          (analyze_memory_advanced initialized g r).1.total_memory = m.memTotal * 1024) := by
  obtain ⟨f, hf, hf0, hf1, herr⟩ := Dbl.used_fraction_spec m.memAvailable m.memTotal ht ha ht64
  obtain ⟨e1, e2, e3, _⟩ := analyze_fields initialized g r m hm
  have hmd : mem_used_double m = Dbl.fin f := hf
  rw [e1, e2, e3, hmd, wmul_wsub_of_le _ _ ha]
  refine ⟨⟨hf0, hf1⟩, fun h53 => ?_, rfl, rfl, fun hfit => ⟨?_, ?_⟩⟩
  · have := herr h53
    rw [pow2_neg52] at this
    exact this
  · exact Nat.mod_eq_of_lt (by omega)
  · exact Nat.mod_eq_of_lt hfit

/-- The scenario of C10: 1 000 000 kB in total and 250 000 kB available give a
fragmentation index of exactly 0.75 and a memory usage of 750 000 kB, in the
bytes of `total_memory`. -/
theorem refresh_usage_and_fragmentation_witness :
    (sampleReadings.meminfo = some sampleMemInfo ∧ 0 < sampleMemInfo.memTotal ∧
      sampleMemInfo.memAvailable ≤ sampleMemInfo.memTotal ∧
      sampleMemInfo.memTotal < SIZE_MOD) ∧
    (analyze_memory_advanced false Globals.init sampleReadings).1.fragmentation_index =
      Dbl.fin (3 / 4) ∧
    (analyze_memory_advanced false Globals.init sampleReadings).1.memory_usage =
      750000 * 1024 ∧
    (analyze_memory_advanced false Globals.init sampleReadings).1.total_memory =
      1000000 * 1024 := by
  have h := refresh_usage_and_fragmentation false Globals.init sampleReadings sampleMemInfo
    rfl (by decide) (by decide) (by decide)
  exact ⟨⟨rfl, by decide, by decide, by decide⟩, by decide!,
    (h.2.2.2.2 (by decide)).1, (h.2.2.2.2 (by decide)).2⟩

theorem dbl_mul_comm (a b : Dbl) : Dbl.mul a b = Dbl.mul b a := by
  cases a <;> cases b <;> simp [Dbl.mul, mul_comm, Bool.xor_comm]

theorem swap_used_percent_eq_double (s : SysInfo) :
    swap_used_percent s = swap_used_double s := by
  by_cases h0 : s.totalswap = 0
  · simp [swap_used_percent, swap_used_double, h0]
  · have hpos : 0 < s.totalswap := Nat.pos_of_ne_zero h0
    simp [swap_used_percent, swap_used_double, h0, hpos]

theorem used_fraction_bounds (a t : Nat) (ht : 0 < t) (ha : a ≤ t) :
    (0 : ℚ) ≤ 1 - (a : ℚ) / (t : ℚ) ∧ 1 - (a : ℚ) / (t : ℚ) ≤ 1 := by
  have ht2 : (0 : ℚ) < (t : ℚ) := by exact_mod_cast ht
  have ha2 : (a : ℚ) ≤ (t : ℚ) := by exact_mod_cast ha
  have h1 : (a : ℚ) / (t : ℚ) ≤ 1 := (div_le_one ht2).mpr ha2
  have h2 : (0 : ℚ) ≤ (a : ℚ) / (t : ℚ) := div_nonneg (Nat.cast_nonneg a) (le_of_lt ht2)
  constructor <;> linarith

theorem swap_used_fraction_bounds (s : SysInfo) (hsw : s.freeswap ≤ s.totalswap) :
    0 ≤ swap_used_fraction s ∧ swap_used_fraction s ≤ 1 := by
  unfold swap_used_fraction
  split
  · rename_i hpos
    exact used_fraction_bounds _ _ hpos hsw
  · exact ⟨le_refl _, by norm_num⟩

theorem clamp01_of_mem (q : ℚ) (h0 : 0 ≤ q) (h1 : q ≤ 1) : clamp01 q = q := by
  unfold clamp01
  rw [min_eq_right h1, max_eq_right h0]

/-- C12 as stated fails: on the skewed reading (1000 kB in total, 2000 kB
available, no swap) the stored pressure score is -0x1.6666666666666p-1, the
unclamped double next to -0.7, and not the clamp 0 of the blend. -/
theorem pressure_score_not_clamped :
    (analyze_memory_advanced false Globals.init skewedReadings).2.g_analytics.pressure_score =
        Dbl.fin (-6305039478318694 / 9007199254740992) ∧
      clamp01 (pressure_blend skewedMemInfo ⟨0, 0⟩) = 0 ∧
      (analyze_memory_advanced false Globals.init skewedReadings).2.g_analytics.pressure_score ≠
        Dbl.fin (clamp01 (pressure_blend skewedMemInfo ⟨0, 0⟩)) ∧
      ¬ Dbl.inRange 0 1
        (analyze_memory_advanced false Globals.init skewedReadings).2.g_analytics.pressure_score := by
  decide!

/-- C12, amended. For every meminfo reading with `total > 0` and every swap
reading, the pressure score a refresh stores is the blend
`0.7*mem_used_fraction + 0.3*swap_used_fraction` evaluated in doubles, with no
clamp. When `available <= total` and `free_swap <= total_swap` (64-bit values)
the stored value lies in `[0,1]`, so a clamp to `[0,1]` would leave it as it
is, and when moreover both totals are at most `2 ^ 53` it is within `2 ^ -49`
of the real blend. -/
theorem pressure_score_blend (initialized : Bool) (g : Globals) (r : Readings) (m : MemInfo)
    (s : SysInfo) (hm : r.meminfo = some m) (hs : r.si = some s) (ht : 0 < m.memTotal) :
    (analyze_memory_advanced initialized g r).2.g_analytics.pressure_score =
        pressure_double m s ∧
      (m.memAvailable ≤ m.memTotal → s.freeswap ≤ s.totalswap → m.memTotal < SIZE_MOD →
        s.totalswap < SIZE_MOD →
        Dbl.inRange 0 1 (analyze_memory_advanced initialized g r).2.g_analytics.pressure_score ∧
        (∀ q : ℚ, (analyze_memory_advanced initialized g r).2.g_analytics.pressure_score =
          Dbl.fin q → clamp01 q = q) ∧
        (m.memTotal ≤ 2 ^ 53 → s.totalswap ≤ 2 ^ 53 →
          Dbl.near (pressure_blend m s) (1 / 2 ^ 49)
            (analyze_memory_advanced initialized g r).2.g_analytics.pressure_score)) := by
  obtain ⟨e2, _, e4⟩ := analyze_pressure initialized g r m s hm hs
  rw [e4, e2]
  refine ⟨?_, fun ha hsw ht64 hs64 => ?_⟩
  · rw [swap_used_percent_eq_double, dbl_mul_comm (mem_used_double m),
      dbl_mul_comm (swap_used_double s)]
    rfl
  · obtain ⟨f, hf, hf0, hf1, herrf⟩ :=
      Dbl.used_fraction_spec m.memAvailable m.memTotal ht ha ht64
    obtain ⟨u, hu, hu0, hu1, herru⟩ := swap_used_percent_spec s hsw hs64
    obtain ⟨p, hp, hp0, hp1, herrp⟩ := blend_spec f u hf0 hf1 hu0 hu1
    have hmd : mem_used_double m = Dbl.fin f := hf
    rw [hmd, hu, hp]
    refine ⟨⟨hp0, hp1⟩, fun q hq => ?_, fun h53 hs53 => ?_⟩
    · rw [← Dbl.fin.inj hq]
      exact clamp01_of_mem p hp0 hp1
    · obtain ⟨hF0, hF1⟩ := used_fraction_bounds _ _ ht ha
      obtain ⟨hU0, hU1⟩ := swap_used_fraction_bounds s hsw
      have h1 := herrf h53
      rw [pow2_neg52] at h1
      exact herrp (1 - (m.memAvailable : ℚ) / (m.memTotal : ℚ)) (swap_used_fraction s)
        hF0 hF1 hU0 hU1 h1 (herru hs53)

/-- An instance of the amended C12 on the sample reading: the stored score is
the double 0x1.5999999999999p-1, next to the real blend 27/40. -/
theorem pressure_score_blend_witness :
    (sampleReadings.meminfo = some sampleMemInfo ∧ sampleReadings.si = some sampleSysInfo ∧
      0 < sampleMemInfo.memTotal) ∧
    pressure_double sampleMemInfo sampleSysInfo =
      Dbl.fin (6079859496950169 / 9007199254740992) ∧
    (analyze_memory_advanced false Globals.init sampleReadings).2.g_analytics.pressure_score =
      Dbl.fin (6079859496950169 / 9007199254740992) := by
  have h := (pressure_score_blend false Globals.init sampleReadings sampleMemInfo sampleSysInfo
    rfl rfl (by decide)).1
  have hv : pressure_double sampleMemInfo sampleSysInfo =
      Dbl.fin (6079859496950169 / 9007199254740992) := by decide!
  exact ⟨⟨rfl, rfl, by decide⟩, hv, h.trans hv⟩

theorem add_swap_zero (x : Dbl) :
    Dbl.add (Dbl.mul x (Dbl.round (7 / 10))) (Dbl.mul (Dbl.fin 0) (Dbl.round (3 / 10))) =
      Dbl.mul x (Dbl.round (7 / 10)) := by
  have hz : Dbl.mul (Dbl.fin 0) (Dbl.round (3 / 10)) = Dbl.fin 0 := by
    rw [Dbl.round_three_tenths]
    simp [Dbl.mul, Dbl.round_zero]
  rw [hz, Dbl.round_seven_tenths]
  cases x with
  | nan => simp [Dbl.mul, Dbl.add]
  | inf sg => simp [Dbl.mul, Dbl.add]
  | fin q =>
    simp only [Dbl.mul]
    cases hr : Dbl.round (q * (6305039478318694 / 9007199254740992)) with
    | nan => simp [Dbl.add]
    | inf sg => simp [Dbl.add]
    | fin y =>
      simp only [Dbl.add, add_zero]
      exact Dbl.round_round _ y hr

/-- C13 as stated fails in its last equation: without swap, on the sample reading
(memory-used fraction exactly 0.75), the pressure score is the double
0x1.0ccccccccccccp-1 and not 0.7 * 0.75. -/
theorem no_swap_pressure_rounded :
    (analyze_memory_advanced false Globals.init noSwapReadings).1.fragmentation_index =
        Dbl.fin (3 / 4) ∧
      (analyze_memory_advanced false Globals.init noSwapReadings).1.pressure_score =
        Dbl.fin (4728779608739020 / 9007199254740992) ∧
      (analyze_memory_advanced false Globals.init noSwapReadings).1.pressure_score ≠
        Dbl.fin ((7 / 10) * mem_used_fraction sampleMemInfo) := by
  decide!

/-- C13, amended. When `total_swap = 0`, for every value of `free_swap` (and of
the other readings) the swap-used fraction is 0, `swap_usage_percent` is 0, and
the swap term contributes nothing to the pressure score: the score is the
double product of 0.7 and the memory-used fraction the code computed. For
`0 < total <= 2 ^ 53` and `available <= total` it is within `2 ^ -51` of the
real `0.7 * (1 - available/total)`. -/
theorem no_swap_contributes_nothing (initialized : Bool) (g : Globals) (r : Readings)
    (m : MemInfo) (s : SysInfo) (hm : r.meminfo = some m) (hs : r.si = some s)
    (h0 : s.totalswap = 0) :
    swap_used_percent s = Dbl.fin 0 ∧
      (analyze_memory_advanced initialized g r).1.swap_usage_percent = 0 ∧
      (analyze_memory_advanced initialized g r).1.pressure_score =
        Dbl.mul (Dbl.round (7 / 10)) (mem_used_double m) ∧
      (0 < m.memTotal → m.memAvailable ≤ m.memTotal → m.memTotal ≤ 2 ^ 53 →
        Dbl.near ((7 / 10) * mem_used_fraction m) (1 / 2 ^ 51)
          (analyze_memory_advanced initialized g r).1.pressure_score) := by
  have hsw : swap_used_percent s = Dbl.fin 0 := by simp [swap_used_percent, h0]
  obtain ⟨hp, hq, _⟩ := analyze_pressure initialized g r m s hm hs
  rw [hp, hq, hsw, add_swap_zero]
  refine ⟨rfl, ?_, dbl_mul_comm _ _, fun ht ha h53 => ?_⟩
  · have : Dbl.mul (Dbl.fin 0) (Dbl.fin 100) = Dbl.fin 0 := by simp [Dbl.mul, Dbl.round_zero]
    rw [this]
    simp [Dbl.toInt]
  · have ht64 : m.memTotal < 2 ^ 64 := lt_of_le_of_lt h53 (by norm_num)
    obtain ⟨f, hf, hf0, hf1, herrf⟩ :=
      Dbl.used_fraction_spec m.memAvailable m.memTotal ht ha ht64
    obtain ⟨p, hpv, _, _, herrp⟩ := scaled_spec f hf0 hf1
    obtain ⟨hF0, hF1⟩ := used_fraction_bounds _ _ ht ha
    have hmd : mem_used_double m = Dbl.fin f := hf
    have h1 := herrf h53
    rw [pow2_neg52] at h1
    rw [hmd, hpv]
    exact herrp (1 - (m.memAvailable : ℚ) / (m.memTotal : ℚ)) hF0 hF1 h1

/-- An instance of the amended C13: no swap and a free value of 5 on the sample
reading give the pressure score 0x1.0ccccccccccccp-1. -/
theorem no_swap_contributes_nothing_witness :
    (noSwapReadings.meminfo = some sampleMemInfo ∧ noSwapReadings.si = some noSwapSysInfo ∧
      noSwapSysInfo.totalswap = 0) ∧
    (analyze_memory_advanced false Globals.init noSwapReadings).1.swap_usage_percent = 0 ∧
    Dbl.mul (Dbl.round (7 / 10)) (mem_used_double sampleMemInfo) =
      Dbl.fin (4728779608739020 / 9007199254740992) ∧
    (analyze_memory_advanced false Globals.init noSwapReadings).1.pressure_score =
      Dbl.fin (4728779608739020 / 9007199254740992) := by
  have h := no_swap_contributes_nothing false Globals.init noSwapReadings sampleMemInfo
    noSwapSysInfo rfl rfl rfl
  have hv : Dbl.mul (Dbl.round (7 / 10)) (mem_used_double sampleMemInfo) =
      Dbl.fin (4728779608739020 / 9007199254740992) := by decide!
  exact ⟨⟨rfl, rfl, rfl⟩, h.2.1, hv, h.2.2.1.trans hv⟩

theorem ofNat_pos_cases (n : Nat) (hn : 0 < n) :
    Dbl.ofNat n = Dbl.inf false ∨ ∃ v : ℚ, Dbl.ofNat n = Dbl.fin v ∧ 0 < v := by
  have hq : (0 : ℚ) < (n : ℚ) := by exact_mod_cast hn
  have h1 : (1 : ℚ) ≤ (n : ℚ) := by exact_mod_cast hn
  unfold Dbl.ofNat
  rw [Dbl.round_of_pos _ hq]
  split
  · exact Or.inl rfl
  · right
    refine ⟨_, rfl, ?_⟩
    have := Dbl.rmag_mono 1 (n : ℚ) (by norm_num) h1
    rw [Dbl.rmag_id 1 (by norm_num) Dbl.representable_one] at this
    linarith

theorem zero_total_fraction (av : Nat) :
    Dbl.sub (Dbl.fin 1) (Dbl.div (Dbl.ofNat av) (Dbl.ofNat 0)) =
      if av = 0 then Dbl.nan else Dbl.inf true := by
  have hz : Dbl.ofNat 0 = Dbl.fin 0 := by simp [Dbl.ofNat, Dbl.round_zero]
  rw [hz]
  by_cases h : av = 0
  · subst h
    rw [hz]
    simp [Dbl.sub, Dbl.div, Dbl.neg, Dbl.add]
  · rcases ofNat_pos_cases av (Nat.pos_of_ne_zero h) with hinf | ⟨v, hv, hpos⟩
    · rw [hinf]
      simp [Dbl.sub, Dbl.div, Dbl.neg, Dbl.add, h]
    · rw [hv]
      have hne : v ≠ 0 := ne_of_gt hpos
      have hnn : ¬ v < 0 := not_lt.mpr (le_of_lt hpos)
      simp [Dbl.sub, Dbl.div, Dbl.neg, Dbl.add, h, hne, hnn]

theorem time_diff_zero_rate (q : Int) :
    Dbl.isfinite (Dbl.div (Dbl.ofInt q) (Dbl.fin 0)) = false := by
  cases h : Dbl.ofInt q with
  | nan => simp [Dbl.div, Dbl.isfinite]
  | inf sg => simp [Dbl.div, Dbl.isfinite]
  | fin v =>
    by_cases hv : v = 0
    · simp [Dbl.div, Dbl.isfinite, hv]
    · simp [Dbl.div, Dbl.isfinite, hv]

/-! ## The analytics claims C11, C14 and C15 -/

/-- C11 fails on the code. With `memTotal = 0` (here and in the text `noTotalLines`,
which has no MemTotal line) the refresh divides by zero: for every value of
`available` the reported `fragmentation_index` is NaN (available = 0) or minus
infinity (available > 0), never 0. -/
theorem refresh_zero_total_divides (g : Globals) (t : Timespec) (usage : Option Rusage)
    (si : Option SysInfo) (mf av c b : Nat) :
    (parse_meminfo noTotalLines).memTotal = 0 ∧
      (report_of (update_analytics g t usage
          (some { memTotal := 0, memFree := mf, memAvailable := av, cached := c, buffers := b })
          si).g_analytics).fragmentation_index =
        (if av = 0 then Dbl.nan else Dbl.inf true) ∧
      (report_of (update_analytics_file g t usage (some noTotalLines)
          si).g_analytics).fragmentation_index = Dbl.inf true := by
  refine ⟨by decide, ?_, ?_⟩
  · simp only [update_analytics, report_of]
    rw [(update_memory_fields _ _ si).1]
    exact zero_total_fraction av
  · have hp : parse_meminfo noTotalLines =
        { memTotal := 0, memFree := 100000, memAvailable := 250000, cached := 0, buffers := 0 } := by
      decide
    simp only [update_analytics_file, update_analytics, report_of, Option.map, hp]
    rw [(update_memory_fields _ _ si).1]
    exact zero_total_fraction 250000

theorem update_memory_faults (a : MemoryAnalytics) (mi : Option MemInfo) (si : Option SysInfo) :
    (update_memory a mi si).major_faults = a.major_faults ∧
      (update_memory a mi si).minor_faults = a.minor_faults ∧
      (update_memory a mi si).fault_rate = a.fault_rate := by
  cases mi <;> cases si <;> simp [update_memory]

theorem update_analytics_faults (g : Globals) (t : Timespec) (u : Rusage)
    (mi : Option MemInfo) (si : Option SysInfo) :
    (update_analytics g t (some u) mi si).g_analytics.major_faults =
        u.ru_majflt - g.g_last_major_faults ∧
      (update_analytics g t (some u) mi si).g_analytics.minor_faults =
        u.ru_minflt - g.g_last_minor_faults ∧
      (update_analytics g t (some u) mi si).g_analytics.fault_rate =
        Dbl.div (Dbl.ofInt ((u.ru_majflt - g.g_last_major_faults) +
          (u.ru_minflt - g.g_last_minor_faults))) (time_diff t g.g_last_check_time) ∧
      (update_analytics g t (some u) mi si).g_last_major_faults = u.ru_majflt ∧
      (update_analytics g t (some u) mi si).g_last_minor_faults = u.ru_minflt ∧
      (update_analytics g t (some u) mi si).g_last_check_time = t := by
  simp only [update_analytics, update_faults]
  obtain ⟨h1, h2, h3⟩ := update_memory_faults
    { g.g_analytics with
      major_faults := u.ru_majflt - g.g_last_major_faults
      minor_faults := u.ru_minflt - g.g_last_minor_faults
      fault_rate := Dbl.div (Dbl.ofInt ((u.ru_majflt - g.g_last_major_faults) +
        (u.ru_minflt - g.g_last_minor_faults))) (time_diff t g.g_last_check_time) } mi si
  exact ⟨h1, h2, h3, trivial, trivial, trivial⟩

/-- C14 as stated fails: with a stored baseline of 10 and 20 and newly read
counters of 3 and 4 the refresh reports the deltas -7 and -16, not 0. -/
theorem fault_deltas_negative :
    (analyze_memory_advanced false Globals.init resetReadings).1.major_faults = -7 ∧
      (analyze_memory_advanced false Globals.init resetReadings).1.minor_faults = -16 ∧
      ¬ (0 ≤ (analyze_memory_advanced false Globals.init resetReadings).1.major_faults) := by
  decide!

/-- C14, amended. For every stored baseline pair and every newly read pair of
cumulative fault counters, the deltas a refresh reports are the plain
differences `new - baseline`; a delta is `>= 0` exactly when the newly read
counter is not lower than the stored baseline, and nothing saturates it. -/
theorem fault_deltas_are_differences (g : Globals) (t : Timespec) (u : Rusage)
    (mi : Option MemInfo) (si : Option SysInfo) :
    (report_of (update_analytics g t (some u) mi si).g_analytics).major_faults =
        u.ru_majflt - g.g_last_major_faults ∧
      (report_of (update_analytics g t (some u) mi si).g_analytics).minor_faults =
        u.ru_minflt - g.g_last_minor_faults ∧
      (0 ≤ (report_of (update_analytics g t (some u) mi si).g_analytics).major_faults ↔
        g.g_last_major_faults ≤ u.ru_majflt) ∧
      (0 ≤ (report_of (update_analytics g t (some u) mi si).g_analytics).minor_faults ↔
        g.g_last_minor_faults ≤ u.ru_minflt) := by
  obtain ⟨h1, h2, _⟩ := update_analytics_faults g t u mi si
  simp only [report_of, h1, h2]
  refine ⟨trivial, trivial, ?_, ?_⟩ <;> constructor <;> intro h <;> omega

/-- C15. When the clock has not advanced since the previous sample (the elapsed
time the refresh computes is 0), the refresh is still defined: the fault rate
it stores is the quotient by zero, an infinity or NaN, for every pair of fault
deltas, and the fault rate of the emitted report is the finite number 0. -/
theorem zero_elapsed_fault_rate (g : Globals) (t : Timespec) (u : Rusage)
    (mi : Option MemInfo) (si : Option SysInfo)
    (htd : time_diff t g.g_last_check_time = Dbl.fin 0) :
    (∀ usage : Option Rusage, Dbl.isfinite
        (report_of (update_analytics g t usage mi si).g_analytics).fault_rate = true) ∧
      Dbl.isfinite (update_analytics g t (some u) mi si).g_analytics.fault_rate = false ∧
      (report_of (update_analytics g t (some u) mi si).g_analytics).fault_rate = Dbl.fin 0 ∧
      Dbl.isfinite
        (report_of (update_analytics g t (some u) mi si).g_analytics).fault_rate = true := by
  obtain ⟨_, _, h3, _⟩ := update_analytics_faults g t u mi si
  have hnf : Dbl.isfinite (update_analytics g t (some u) mi si).g_analytics.fault_rate = false := by
    rw [h3, htd]
    exact time_diff_zero_rate _
  refine ⟨fun _ => report_fault_rate_finite _, hnf, ?_, report_fault_rate_finite _⟩
  simp [report_of, hnf]

/-- An instance of C15: a refresh at the very time of the baseline, with 7 new
faults, stores an infinite rate and reports 0. -/
theorem zero_elapsed_fault_rate_witness :
    time_diff ⟨100, 0⟩ baselineGlobals.g_last_check_time = Dbl.fin 0 ∧
      (update_analytics baselineGlobals ⟨100, 0⟩ (some ⟨6, 8⟩) (some sampleMemInfo)
        (some sampleSysInfo)).g_analytics.fault_rate = Dbl.inf false ∧
      (report_of (update_analytics baselineGlobals ⟨100, 0⟩ (some ⟨6, 8⟩) (some sampleMemInfo)
        (some sampleSysInfo)).g_analytics).fault_rate = Dbl.fin 0 :=
  ⟨by decide!, by decide!,
    (zero_elapsed_fault_rate baselineGlobals ⟨100, 0⟩ ⟨6, 8⟩ (some sampleMemInfo)
      (some sampleSysInfo) (by decide!)).2.2.1⟩

/-! ## The reading loop: claim C16 -/

theorem perm_eq_of_length_le_one {α : Type} (l l2 : List α) (hp : l2.Perm l)
    (hl : l.length ≤ 1) : l2 = l := by
  match l, hl with
  | [], _ => exact hp.eq_nil
  | [a], _ => exact hp.eq_singleton

/-- A field of the parse only sees the lines that carry its label, provided the
loop body reads the field through its old value only and leaves it alone on
every line without the label. -/
theorem parse_field_filter (get : MemInfo → Nat) (lit : List Char)
    (hdep : ∀ m m2 line, get m = get m2 → get (meminfo_line m line) = get (meminfo_line m2 line))
    (hid : ∀ m line, has_label lit line = false → get (meminfo_line m line) = get m)
    (lines : List (List Char)) (m m2 : MemInfo) (h : get m = get m2) :
    get (lines.foldl meminfo_line m) =
      get ((lines.filter (has_label lit)).foldl meminfo_line m2) := by
  induction lines generalizing m m2 with
  | nil => simpa using h
  | cons line rest ih =>
    by_cases hl : has_label lit line = true
    · simp only [List.foldl_cons, List.filter_cons, hl, if_true]
      exact ih _ _ (hdep m m2 line h)
    · have hl2 : has_label lit line = false := by simpa using hl
      simp only [List.foldl_cons, List.filter_cons, hl2, Bool.false_eq_true, if_false]
      exact ih _ _ ((hid m line hl2).trans h)

theorem sscanf_lu_none (lit line : List Char) (h : has_label lit line = false) :
    sscanf_lu lit line = none := by
  unfold has_label at h
  simp [sscanf_lu, h]

theorem memTotal_dep (m m2 : MemInfo) (line : List Char) (h : m.memTotal = m2.memTotal) :
    (meminfo_line m line).memTotal = (meminfo_line m2 line).memTotal := by
  unfold meminfo_line
  split_ifs <;> (first | exact h | (split <;> first | exact h | rfl))

theorem memAvailable_dep (m m2 : MemInfo) (line : List Char)
    (h : m.memAvailable = m2.memAvailable) :
    (meminfo_line m line).memAvailable = (meminfo_line m2 line).memAvailable := by
  unfold meminfo_line
  split_ifs <;> (first | exact h | (split <;> first | exact h | rfl))

theorem cached_dep (m m2 : MemInfo) (line : List Char) (h : m.cached = m2.cached) :
    (meminfo_line m line).cached = (meminfo_line m2 line).cached := by
  unfold meminfo_line
  split_ifs <;> (first | exact h | (split <;> first | exact h | rfl))

theorem buffers_dep (m m2 : MemInfo) (line : List Char) (h : m.buffers = m2.buffers) :
    (meminfo_line m line).buffers = (meminfo_line m2 line).buffers := by
  unfold meminfo_line
  split_ifs <;> (first | exact h | (split <;> first | exact h | rfl))

theorem memTotal_id (m : MemInfo) (line : List Char) (h : has_label MEMTOTAL line = false) :
    (meminfo_line m line).memTotal = m.memTotal := by
  unfold meminfo_line
  rw [sscanf_lu_none MEMTOTAL line h]
  split_ifs <;> (first | rfl | (split <;> rfl))

theorem memAvailable_id (m : MemInfo) (line : List Char)
    (h : has_label MEMAVAILABLE line = false) :
    (meminfo_line m line).memAvailable = m.memAvailable := by
  unfold meminfo_line
  rw [sscanf_lu_none MEMAVAILABLE line h]
  split_ifs <;> (first | rfl | (split <;> rfl))

theorem cached_id (m : MemInfo) (line : List Char) (h : has_label CACHED line = false) :
    (meminfo_line m line).cached = m.cached := by
  unfold meminfo_line
  rw [sscanf_lu_none CACHED line h]
  split_ifs <;> (first | rfl | (split <;> rfl))

theorem buffers_id (m : MemInfo) (line : List Char) (h : has_label BUFFERS line = false) :
    (meminfo_line m line).buffers = m.buffers := by
  unfold meminfo_line
  rw [sscanf_lu_none BUFFERS line h]
  split_ifs <;> (first | rfl | (split <;> rfl))

/-- The four fields of the parse are determined by the lines carrying the four
labels, taken label by label in file order. -/
theorem parse_fields_filter (lines : List (List Char)) :
    (parse_meminfo lines).fields =
      ((parse_meminfo (lines.filter (has_label MEMTOTAL))).memTotal,
        (parse_meminfo (lines.filter (has_label MEMAVAILABLE))).memAvailable,
        (parse_meminfo (lines.filter (has_label CACHED))).cached,
        (parse_meminfo (lines.filter (has_label BUFFERS))).buffers) := by
  unfold MemInfo.fields parse_meminfo
  rw [parse_field_filter (fun m => m.memTotal) MEMTOTAL memTotal_dep memTotal_id lines _ _ rfl,
    parse_field_filter (fun m => m.memAvailable) MEMAVAILABLE memAvailable_dep memAvailable_id
      lines _ _ rfl,
    parse_field_filter (fun m => m.cached) CACHED cached_dep cached_id lines _ _ rfl,
    parse_field_filter (fun m => m.buffers) BUFFERS buffers_dep buffers_id lines _ _ rfl]

theorem filter_insert_other (p : List Char → Bool) (pre post : List (List Char))
    (extra : List Char) (h : p extra = false) :
    (pre ++ extra :: post).filter p = (pre ++ post).filter p := by
  simp [List.filter_append, List.filter_cons, h]

/-- C16. The reading loop tolerates reordered, extra and missing lines: when each
of the labels MemTotal, MemAvailable, Cached and Buffers occurs at most once,
every reordering of the lines parses to the same four values; a line with any
other label can be inserted anywhere without changing them; and a field whose
label occurs on no line is 0. -/
theorem parse_meminfo_tolerant (lines lines2 : List (List Char))
    (hperm : lines2.Perm lines) (honce : labelsAtMostOnce lines) :
    (parse_meminfo lines2).fields = (parse_meminfo lines).fields ∧
      (∀ (pre post : List (List Char)) (extra : List Char), otherLabel extra →
        (parse_meminfo (pre ++ extra :: post)).fields = (parse_meminfo (pre ++ post)).fields) ∧
      (lines.filter (has_label MEMTOTAL) = [] → (parse_meminfo lines).memTotal = 0) ∧
      (lines.filter (has_label MEMAVAILABLE) = [] → (parse_meminfo lines).memAvailable = 0) ∧
      (lines.filter (has_label CACHED) = [] → (parse_meminfo lines).cached = 0) ∧
      (lines.filter (has_label BUFFERS) = [] → (parse_meminfo lines).buffers = 0) := by
  obtain ⟨h1, h2, h3, h4⟩ := honce
  have hf := parse_fields_filter lines
  refine ⟨?_, ?_, ?_, ?_, ?_, ?_⟩
  · rw [parse_fields_filter lines2, hf,
      perm_eq_of_length_le_one _ _ (hperm.filter (has_label MEMTOTAL)) h1,
      perm_eq_of_length_le_one _ _ (hperm.filter (has_label MEMAVAILABLE)) h2,
      perm_eq_of_length_le_one _ _ (hperm.filter (has_label CACHED)) h3,
      perm_eq_of_length_le_one _ _ (hperm.filter (has_label BUFFERS)) h4]
  · intro pre post extra hother
    obtain ⟨o1, o2, o3, o4⟩ := hother
    rw [parse_fields_filter (pre ++ extra :: post), parse_fields_filter (pre ++ post),
      filter_insert_other _ pre post extra o1, filter_insert_other _ pre post extra o2,
      filter_insert_other _ pre post extra o3, filter_insert_other _ pre post extra o4]
  · intro h0
    have := congrArg (fun f => f.1) hf
    simp only [MemInfo.fields, h0] at this
    rw [this]
    rfl
  · intro h0
    have := congrArg (fun f => f.2.1) hf
    simp only [MemInfo.fields, h0] at this
    rw [this]
    rfl
  · intro h0
    have := congrArg (fun f => f.2.2.1) hf
    simp only [MemInfo.fields, h0] at this
    rw [this]
    rfl
  · intro h0
    have := congrArg (fun f => f.2.2.2) hf
    simp only [MemInfo.fields, h0] at this
    rw [this]
    rfl

/-- An instance of C16: the sample text read backwards parses to the same four
values, 1 000 000, 250 000, 50 000 and 4 000. -/
theorem parse_meminfo_tolerant_witness :
    (sampleLines.reverse.Perm sampleLines ∧ labelsAtMostOnce sampleLines) ∧
      (parse_meminfo sampleLines.reverse).fields = (1000000, 250000, 50000, 4000) :=
  ⟨⟨List.reverse_perm sampleLines, by decide⟩,
    (parse_meminfo_tolerant sampleLines sampleLines.reverse (List.reverse_perm sampleLines)
      (by decide)).1.trans (by decide)⟩

/-! ## The claims C17 to C20 -/

/-- C17. After every refresh whose fault-counter read succeeds, the stored
baseline is the pair of counters just read and `g_last_check_time` is the time
just read; hence a second successful refresh, reading `u2` after `u`, reports
the deltas `u2 - u`, whatever the baseline before the first refresh was. -/
theorem refresh_updates_baseline (g : Globals) (t t2 : Timespec) (u u2 : Rusage)
    (mi mi2 : Option MemInfo) (si si2 : Option SysInfo) :
    (update_analytics g t (some u) mi si).g_last_major_faults = u.ru_majflt ∧
      (update_analytics g t (some u) mi si).g_last_minor_faults = u.ru_minflt ∧
      (update_analytics g t (some u) mi si).g_last_check_time = t ∧
      (report_of (update_analytics (update_analytics g t (some u) mi si) t2 (some u2) mi2
        si2).g_analytics).major_faults = u2.ru_majflt - u.ru_majflt ∧
      (report_of (update_analytics (update_analytics g t (some u) mi si) t2 (some u2) mi2
        si2).g_analytics).minor_faults = u2.ru_minflt - u.ru_minflt := by
  obtain ⟨_, _, _, b1, b2, b3⟩ := update_analytics_faults g t u mi si
  obtain ⟨d1, d2, _⟩ :=
    update_analytics_faults (update_analytics g t (some u) mi si) t2 u2 mi2 si2
  refine ⟨b1, b2, b3, ?_, ?_⟩
  · simp only [report_of, d1, b1]
  · simp only [report_of, d2, b2]

theorem update_faults_frame (g : Globals) (td : Dbl) (usage : Option Rusage) :
    (update_faults g td usage).g_memory_block_head = g.g_memory_block_head ∧
      (update_faults g td usage).g_analytics.peak_usage = g.g_analytics.peak_usage ∧
      (update_faults g td usage).g_analytics.memory_usage = g.g_analytics.memory_usage := by
  cases usage <;> exact ⟨rfl, rfl, rfl⟩

/-- C18. A refresh that could read meminfo overwrites `memory_usage` with the
system-wide value `(memTotal - memAvailable) * 1024`, whatever the registry
holds, and leaves the registry and `peak_usage` as they were. So the running
total of the tracker is lost and the peak is not raised: after the leak
scenario (800 bytes live, peak 1200) a refresh on the sample reading leaves
`memory_usage = 768000000` next to a live total of 800 and a peak of 1200. -/
theorem refresh_overwrites_memory_usage (g : Globals) (t : Timespec) (usage : Option Rusage)
    (m : MemInfo) (si : Option SysInfo) :
    ((update_analytics g t usage (some m) si).g_analytics.memory_usage =
        wmul (wsub m.memTotal m.memAvailable) 1024 ∧
      (update_analytics g t usage (some m) si).g_memory_block_head = g.g_memory_block_head ∧
      (update_analytics g t usage (some m) si).g_analytics.peak_usage =
        g.g_analytics.peak_usage) ∧
    ((update_analytics (run Globals.init leakScenario) ⟨101, 0⟩ none (some sampleMemInfo)
        none).g_analytics.memory_usage = 768000000 ∧
      sumSizes (update_analytics (run Globals.init leakScenario) ⟨101, 0⟩ none
        (some sampleMemInfo) none).g_memory_block_head = 800 ∧
      (update_analytics (run Globals.init leakScenario) ⟨101, 0⟩ none (some sampleMemInfo)
        none).g_analytics.peak_usage = 1200) := by
  obtain ⟨f1, f2, f3⟩ := update_faults_frame g (time_diff t g.g_last_check_time) usage
  obtain ⟨_, e2, _, _, e5⟩ := update_memory_fields
    (update_faults g (time_diff t g.g_last_check_time) usage).g_analytics m si
  refine ⟨⟨?_, ?_, ?_⟩, by decide, by decide, by decide⟩
  · simp only [update_analytics, e2]
  · simp only [update_analytics, f1]
  · simp only [update_analytics, e5, f2]

theorem wadd_usage_free (t a : Nat) :
    wadd (wmul (wsub t a) 1024) (wmul a 1024) = wmul t 1024 := by
  unfold wadd wmul wsub SIZE_MOD
  norm_num
  omega

/-- C19. In every report produced after a successful meminfo read,
`memory_usage + free_memory = total_memory` in unsigned 64-bit arithmetic, for
every pair of parsed values `memTotal` and `memAvailable`, also when
`memAvailable > memTotal` and the subtraction wraps around. -/
theorem report_usage_plus_free (initialized : Bool) (g : Globals) (r : Readings) (m : MemInfo)
    (hm : r.meminfo = some m) :
    wadd (analyze_memory_advanced initialized g r).1.memory_usage
        (analyze_memory_advanced initialized g r).1.free_memory =
      (analyze_memory_advanced initialized g r).1.total_memory := by
  simp only [analyze_memory_advanced, update_analytics, report_of, hm]
  obtain ⟨_, e2, e3, e4, _⟩ := update_memory_fields
    (update_faults (if initialized = false then init_analytics g r.init_time r.init_usage else g)
      (time_diff r.current_time
        (if initialized = false then init_analytics g r.init_time r.init_usage
          else g).g_last_check_time) r.usage).g_analytics m r.si
  rw [e2, e3, e4]
  exact wadd_usage_free _ _

/-- An instance of C19 with a wrap-around: 1000 kB in total and 2000 kB available
give `memory_usage = 2^64 - 1024000`, `free_memory = 2048000` and
`total_memory = 1024000`. -/
theorem report_usage_plus_free_witness :
    skewedReadings.meminfo = some skewedMemInfo ∧
      (analyze_memory_advanced false Globals.init skewedReadings).1.memory_usage =
        2 ^ 64 - 1024000 ∧
      (analyze_memory_advanced false Globals.init skewedReadings).1.free_memory = 2048000 ∧
      wadd (2 ^ 64 - 1024000) 2048000 =
        (analyze_memory_advanced false Globals.init skewedReadings).1.total_memory :=
  ⟨rfl, by decide, by decide,
    (report_usage_plus_free false Globals.init skewedReadings skewedMemInfo rfl)⟩

theorem wsub_wadd_cancel (mu size : Nat) (h : mu < SIZE_MOD) : wsub (wadd mu size) size = mu := by
  unfold wadd
  rw [Nat.add_comm, wsub_cancel]
  exact Nat.mod_eq_of_lt h

/-- C20. Allocate-then-release round trip: for every tracker state (with
`memory_usage` a 64-bit value) and every size, if `tracked_malloc` returns a
non-null address that no record of the registry carries and that address is
passed to `tracked_free` at once, the registry (contents and order) and
`memory_usage` are as before the two calls, and `peak_usage` has not decreased:
it is the maximum of the old peak and `memory_usage + size` when the record was
made, and the old peak otherwise. -/
theorem malloc_free_round_trip (g : Globals) (size : Nat) (filename : String) (line : Int)
    (ptr : Nat) (block : Bool) (hptr : ptr ≠ 0)
    (hfresh : ptr ∉ addresses g.g_memory_block_head)
    (hmu : g.g_analytics.memory_usage < SIZE_MOD) :
    (tracked_free (tracked_malloc g size filename line ptr block).2
        (tracked_malloc g size filename line ptr block).1).g_memory_block_head =
        g.g_memory_block_head ∧
      (tracked_free (tracked_malloc g size filename line ptr block).2
        (tracked_malloc g size filename line ptr block).1).g_analytics.memory_usage =
        g.g_analytics.memory_usage ∧
      g.g_analytics.peak_usage ≤
        (tracked_free (tracked_malloc g size filename line ptr block).2
          (tracked_malloc g size filename line ptr block).1).g_analytics.peak_usage ∧
      (tracked_free (tracked_malloc g size filename line ptr block).2
          (tracked_malloc g size filename line ptr block).1).g_analytics.peak_usage =
        (if block = true then
          max g.g_analytics.peak_usage (wadd g.g_analytics.memory_usage size)
        else g.g_analytics.peak_usage) := by
  cases block with
  | false =>
    simp only [tracked_malloc, hptr, ne_eq, not_false_eq_true, if_true, Bool.false_eq_true,
      if_false]
    rw [tracked_free_absent g ptr (Or.inr hfresh)]
    exact ⟨rfl, rfl, le_refl _, rfl⟩
  | true =>
    simp only [tracked_malloc, hptr, ne_eq, not_false_eq_true, if_true, Bool.true_eq_false,
      if_false, tracked_free, find_block, unlink_block, not_true_eq_false]
    refine ⟨trivial, wsub_wadd_cancel _ _ hmu, ?_, ?_⟩
    · split <;> omega
    · split
      · rw [Nat.max_eq_right (by omega)]
      · rw [Nat.max_eq_left (by omega)]

/-- An instance of C20: 16 bytes allocated at the fresh address 12288 after the
leak scenario and released at once; the peak stays 1200. -/
theorem malloc_free_round_trip_witness :
    (12288 ≠ 0 ∧ 12288 ∉ addresses (run Globals.init leakScenario).g_memory_block_head ∧
      (run Globals.init leakScenario).g_analytics.memory_usage < SIZE_MOD) ∧
    (tracked_free (tracked_malloc (run Globals.init leakScenario) 16 "a.c" 9 12288 true).2
        (tracked_malloc (run Globals.init leakScenario) 16 "a.c" 9 12288 true).1).g_memory_block_head =
      (run Globals.init leakScenario).g_memory_block_head ∧
    (tracked_free (tracked_malloc (run Globals.init leakScenario) 16 "a.c" 9 12288 true).2
        (tracked_malloc (run Globals.init leakScenario) 16 "a.c" 9 12288 true).1).g_analytics.memory_usage =
      800 :=
  have h := malloc_free_round_trip (run Globals.init leakScenario) 16 "a.c" 9 12288 true
    (by decide) (by decide) (by decide)
  ⟨⟨by decide, by decide, by decide⟩, h.1, h.2.1.trans (by decide)⟩

end MemoryFlow
